import Mathlib

set_option maxRecDepth 16000

/-!
Shallow embedding of `src/k8s_diagnostics_agent/app.py`.

Python values are modelled by the inductive type `PyVal`; exceptions that the
code can actually raise (attribute errors from `x.get(...)` on a non-mapping,
type errors from iterating a non-iterable) are modelled explicitly with
`Except PyErr`.  A `try/except Exception: pass` block becomes a total match on
the `Except` result.  Python `object` attributes live in the `obj` constructor;
dictionaries in `dict`.  A bound method such as `turn.to_dict()` is modelled by
storing the dictionary it returns as the value of the `"to_dict"` attribute.
JSON values produced by `json.loads` are modelled by `JVal`; JSON numbers keep
their source lexeme (floating-point evaluation is not modelled).
-/

/-- Characters written via their code points to keep string literals plain. -/
def tickChar : Char := Char.ofNat 96

/-- Opening curly brace character. -/
def obraceChar : Char := Char.ofNat 123

/-- Closing curly brace character. -/
def cbraceChar : Char := Char.ofNat 125

/-- Python runtime errors that the embedded code can raise. -/
inductive PyErr where
  | attrError
  | typeError
deriving DecidableEq

/-- Python values, as far as `app.py` inspects them. -/
inductive PyVal where
  | pnone
  | bool (b : Bool)
  | int (n : Int)
  | str (s : String)
  | list (xs : List PyVal)
  | dict (kvs : List (String × PyVal))
  | obj (attrs : List (String × PyVal))

/-- Python truthiness of a value (`if v:`). -/
def pyTruthy : PyVal → Bool
  | .pnone => false
  | .bool b => b
  | .int n => n != 0
  | .str s => s != ""
  | .list xs => !xs.isEmpty
  | .dict kvs => !kvs.isEmpty
  | .obj _ => true

/-- Whether a value is a Python `str` (`isinstance(v, str)`). -/
def isPyStr : PyVal → Bool
  | .str _ => true
  | _ => false

/-- Whether a value is a Python `dict` (`isinstance(v, dict)`). -/
def isPyDict : PyVal → Bool
  | .dict _ => true
  | _ => false

/-- Whether a value is a Python `list` (`isinstance(v, list)`). -/
def isPyList : PyVal → Bool
  | .list _ => true
  | _ => false

/-- Attribute lookup `getattr(v, name)`: only `obj` carries data attributes
(a dict, list, string or number has none of the attribute names the code
probes); returns `none` when the attribute is missing. -/
def pyGetattr : PyVal → String → Option PyVal
  | .obj attrs, name => (attrs.find? (fun p => p.1 == name)).map (·.2)
  | _, _ => Option.none

/-- Attribute lookup with default `None`: `getattr(v, name, None)`. -/
def pyGetattrD (v : PyVal) (name : String) : PyVal :=
  (pyGetattr v name).getD .pnone

/-- Method call `v.get(key)`: succeeds only on a dict, raising
`AttributeError` otherwise, exactly like Python. -/
def pyDictGet : PyVal → String → Except PyErr (Option PyVal)
  | .dict kvs, key => .ok ((kvs.find? (fun p => p.1 == key)).map (·.2))
  | _, _ => .error .attrError

/-- Iteration `for x in v`: lists yield their items, strings their characters,
dicts their keys; anything else raises `TypeError`. -/
def pyIter : PyVal → Except PyErr (List PyVal)
  | .list xs => .ok xs
  | .str s => .ok (s.data.map (fun c => .str (String.mk [c])))
  | .dict kvs => .ok (kvs.map (fun p => .str p.1))
  | _ => .error .typeError

/-- `reversed(v)`: reversed iteration over the same iterables. -/
def pyReversed (v : PyVal) : Except PyErr (List PyVal) :=
  (pyIter v).map List.reverse

/-- Equality test of a value against a string literal (`v == "lit"`);
non-strings compare unequal, as in Python. -/
def pyEqStr : PyVal → String → Bool
  | .str t, s => t == s
  | _, _ => false

/-- Python whitespace as used by `str.strip()` (ASCII subset). -/
def pyIsSpace (c : Char) : Bool :=
  c == ' ' || c == '\t' || c == '\n' || c == '\x0d' || c == '\x0b' || c == '\x0c'

/-- List-level `str.strip()`. -/
def pyStripL (cs : List Char) : List Char :=
  ((cs.dropWhile pyIsSpace).reverse.dropWhile pyIsSpace).reverse

/-- Python `s.strip()`. -/
def pyStrip (s : String) : String := String.mk (pyStripL s.data)

/-- Python `s.startswith(pre)`. -/
def pyStartsWith (s pre : String) : Bool := pre.data.isPrefixOf s.data

/-- First index of `pat` as a sublist of `cs` (`s.find(pat)` when some). -/
def findSub (pat : List Char) : List Char → Option Nat
  | [] => if pat.isEmpty then some 0 else Option.none
  | c :: rest =>
    if pat.isPrefixOf (c :: rest) then some 0
    else (findSub pat rest).map (· + 1)

/-- Last index of `pat` as a sublist of `cs` (`s.rfind(pat)` when some). -/
def lastSub (pat cs : List Char) : Option Nat :=
  ((List.range (cs.length + 1)).filter (fun i => pat.isPrefixOf (cs.drop i))).getLast?

/-- Fuel-driven worker for `replaceSubL`; the fuel only needs to dominate the
list length, so the function stays structurally recursive and computable by
the kernel. -/
def replaceSubAux (pat repl : List Char) : Nat → List Char → List Char
  | _, [] => []
  | 0, cs => cs
  | fuel + 1, c :: rest =>
    if !pat.isEmpty && pat.isPrefixOf (c :: rest) then
      repl ++ replaceSubAux pat repl fuel ((c :: rest).drop pat.length)
    else
      c :: replaceSubAux pat repl fuel rest

/-- Python `s.replace(pat, repl)` on character lists, left to right,
non-overlapping. -/
def replaceSubL (pat repl cs : List Char) : List Char :=
  replaceSubAux pat repl cs.length cs

/-- JSON values as returned by `json.loads`; numbers keep their lexeme.
Objects keep their members in source order (duplicate keys can occur in the
list; lookup takes the last one, matching Python's last-wins parsing). -/
inductive JVal where
  | null
  | bool (b : Bool)
  | num (lexeme : String)
  | str (s : String)
  | arr (xs : List JVal)
  | obj (kvs : List (String × JVal))

/-- Dictionary lookup on a parsed JSON object (`d.get(k)`); the last binding
wins, matching Python's duplicate-key behaviour. -/
def jGet : JVal → String → Option JVal
  | .obj kvs, key => ((kvs.filter (fun p => p.1 == key)).getLast?).map (·.2)
  | _, _ => Option.none

/-- Whether a JSON number lexeme denotes zero (sign, dot and exponent aside). -/
def jNumIsZero (lexeme : String) : Bool :=
  ((lexeme.data.takeWhile (fun c => c != 'e' && c != 'E')).filter
    (fun c => c != '-' && c != '.')).all (fun c => c == '0')

/-- Python truthiness of a parsed JSON value. -/
def jTruthy : JVal → Bool
  | .null => false
  | .bool b => b
  | .num s => !(jNumIsZero s)
  | .str s => s != ""
  | .arr xs => !xs.isEmpty
  | .obj kvs => !kvs.isEmpty

/-- Whether a parsed JSON value is a Python list. -/
def jIsArr : JVal → Bool
  | .arr _ => true
  | _ => false

/-- Whether a parsed JSON value is a Python dict. -/
def jIsObj : JVal → Bool
  | .obj _ => true
  | _ => false

/-- Whether a parsed JSON value is a Python str. -/
def jIsStr : JVal → Bool
  | .str _ => true
  | _ => false

/-- JSON whitespace accepted by `json.loads`. -/
def jsonWs (c : Char) : Bool :=
  c == ' ' || c == '\t' || c == '\n' || c == '\x0d'

/-- Value of a hexadecimal digit, if the character is one. -/
def hexVal (c : Char) : Option Nat :=
  if '0' ≤ c && c ≤ '9' then some (c.toNat - 48)
  else if 'a' ≤ c && c ≤ 'f' then some (c.toNat - 87)
  else if 'A' ≤ c && c ≤ 'F' then some (c.toNat - 55)
  else Option.none

/-- Decode one string-literal body up to its closing quote, handling the JSON
escapes; rejects raw control characters like the strict Python decoder. -/
def parseJStr : List Char → Option (List Char × List Char)
  | [] => Option.none
  | '"' :: rest => some ([], rest)
  | '\\' :: 'u' :: a :: b :: c :: d :: rest =>
    match hexVal a, hexVal b, hexVal c, hexVal d with
    | some va, some vb, some vc, some vd =>
      (parseJStr rest).map (fun p =>
        (Char.ofNat (4096 * va + 256 * vb + 16 * vc + vd) :: p.1, p.2))
    | _, _, _, _ => Option.none
  | '\\' :: e :: rest =>
    let dec : Option Char :=
      if e = '"' then some '"'
      else if e = '\\' then some '\\'
      else if e = '/' then some '/'
      else if e = 'b' then some '\x08'
      else if e = 'f' then some '\x0c'
      else if e = 'n' then some '\n'
      else if e = 'r' then some '\x0d'
      else if e = 't' then some '\t'
      else Option.none
    match dec with
    | some ch => (parseJStr rest).map (fun p => (ch :: p.1, p.2))
    | Option.none => Option.none
  | c :: rest =>
    if c.toNat < 32 then Option.none
    else (parseJStr rest).map (fun p => (c :: p.1, p.2))

/-- Lex a JSON number lexeme (strict grammar), returning it with the rest. -/
def parseJNum (cs : List Char) : Option (List Char × List Char) :=
  let (sign, cs1) := if cs.head? = some '-' then (['-'], cs.drop 1) else ([], cs)
  let intPart := cs1.takeWhile Char.isDigit
  let rest1 := cs1.drop intPart.length
  if intPart.isEmpty then Option.none
  else if intPart.length > 1 && intPart.head? = some '0' then Option.none
  else
    let (frac, rest2) :=
      match rest1 with
      | '.' :: r =>
        let ds := r.takeWhile Char.isDigit
        if ds.isEmpty then ([], rest1) else ('.' :: ds, r.drop ds.length)
      | _ => ([], rest1)
    if rest1.head? = some '.' && frac.isEmpty then Option.none
    else
      let (expo, rest3) :=
        match rest2 with
        | e :: r =>
          if e = 'e' || e = 'E' then
            let (es, r2) :=
              match r with
              | s :: r3 => if s = '+' || s = '-' then ([s], r3) else ([], r)
              | [] => ([], r)
            let ds := r2.takeWhile Char.isDigit
            if ds.isEmpty then ([], rest2) else (e :: (es ++ ds), r2.drop ds.length)
          else ([], rest2)
        | [] => ([], rest2)
      if (rest2.head? = some 'e' || rest2.head? = some 'E') && expo.isEmpty then Option.none
      else some (sign ++ intPart ++ frac ++ expo, rest3)

mutual

/-- Recursive-descent JSON value parser with fuel; mirrors strict
`json.loads` on the inputs the code feeds it. -/
def parseJVal : Nat → List Char → Option (JVal × List Char)
  | 0, _ => Option.none
  | fuel + 1, cs =>
    match cs.dropWhile jsonWs with
    | 'n' :: 'u' :: 'l' :: 'l' :: rest => some (.null, rest)
    | 't' :: 'r' :: 'u' :: 'e' :: rest => some (.bool true, rest)
    | 'f' :: 'a' :: 'l' :: 's' :: 'e' :: rest => some (.bool false, rest)
    | '"' :: rest =>
      (parseJStr rest).map (fun p => (.str (String.mk p.1), p.2))
    | '[' :: rest =>
      (match (rest.dropWhile jsonWs) with
       | ']' :: rest2 => some (.arr [], rest2)
       | _ => (parseJArr fuel rest).map (fun p => (.arr p.1, p.2)))
    | c :: rest =>
      if c = obraceChar then
        match (rest.dropWhile jsonWs) with
        | c2 :: rest2 =>
          if c2 = cbraceChar then some (.obj [], rest2)
          else (parseJObj fuel rest).map (fun p => (.obj p.1, p.2))
        | [] => Option.none
      else if c.isDigit || c = '-' then
        (parseJNum (c :: rest)).map (fun p => (.num (String.mk p.1), p.2))
      else Option.none
    | [] => Option.none

/-- Parse the members of a JSON array after `[` (at least one member). -/
def parseJArr : Nat → List Char → Option (List JVal × List Char)
  | 0, _ => Option.none
  | fuel + 1, cs =>
    match parseJVal fuel cs with
    | some (v, rest) =>
      (match rest.dropWhile jsonWs with
       | ',' :: rest2 => (parseJArr fuel rest2).map (fun p => (v :: p.1, p.2))
       | ']' :: rest2 => some ([v], rest2)
       | _ => Option.none)
    | Option.none => Option.none

/-- Parse the members of a JSON object after the opening brace
(at least one member). -/
def parseJObj : Nat → List Char → Option (List (String × JVal) × List Char)
  | 0, _ => Option.none
  | fuel + 1, cs =>
    match cs.dropWhile jsonWs with
    | '"' :: rest =>
      match parseJStr rest with
      | some (key, rest1) =>
        (match rest1.dropWhile jsonWs with
         | ':' :: rest2 =>
           match parseJVal fuel rest2 with
           | some (v, rest3) =>
             (match rest3.dropWhile jsonWs with
              | ',' :: rest4 => (parseJObj fuel rest4).map
                  (fun p => ((String.mk key, v) :: p.1, p.2))
              | c :: rest4 =>
                if c = cbraceChar then some ([(String.mk key, v)], rest4)
                else Option.none
              | [] => Option.none)
           | Option.none => Option.none
         | _ => Option.none)
      | Option.none => Option.none
    | _ => Option.none

end

/-- Model of `json.loads`: parse one value, then demand only trailing
whitespace. -/
def jsonLoads (s : String) : Option JVal :=
  match parseJVal (s.length + 1) s.data with
  | some (v, rest) => if (rest.dropWhile jsonWs).isEmpty then some v else Option.none
  | Option.none => Option.none

/-- Single-quote string used by the repr models. -/
def oneQuote : String := "'"

mutual

/-- Python `str(v)`; for `str` inputs the string itself, otherwise the repr.
The address-bearing default repr of a bare object is modelled by the stand-in
`"<object>"`, whose exact text no claim depends on. -/
def pyStr : PyVal → String
  | .str s => s
  | v => pyRepr v

/-- Python `repr(v)` (string escaping inside reprs is not needed by any
claim and is modelled naively with plain quotes). -/
def pyRepr : PyVal → String
  | .pnone => "None"
  | .bool b => if b then "True" else "False"
  | .int n => toString n
  | .str s => oneQuote ++ s ++ oneQuote
  | .list xs => "[" ++ pyReprList xs ++ "]"
  | .dict kvs => "\x7b" ++ pyReprDict kvs ++ "\x7d"
  | .obj _ => "<object>"

/-- Comma-joined reprs of list items. -/
def pyReprList : List PyVal → String
  | [] => ""
  | [x] => pyRepr x
  | x :: y :: rest => pyRepr x ++ ", " ++ pyReprList (y :: rest)

/-- Comma-joined `'k': v` reprs of dict items. -/
def pyReprDict : List (String × PyVal) → String
  | [] => ""
  | [(k, v)] => oneQuote ++ k ++ oneQuote ++ ": " ++ pyRepr v
  | (k, v) :: p :: rest => oneQuote ++ k ++ oneQuote ++ ": " ++ pyRepr v ++ ", " ++ pyReprDict (p :: rest)

end

/-- JSON string-literal escaping used by `json.dumps(..., ensure_ascii=False)`:
backslash, quote and control characters are escaped, everything else is kept. -/
def jsonEscChar (c : Char) : List Char :=
  if c = '"' then ['\\', '"']
  else if c = '\\' then ['\\', '\\']
  else if c = '\n' then ['\\', 'n']
  else if c = '\t' then ['\\', 't']
  else if c = '\x0d' then ['\\', 'r']
  else if c = '\x08' then ['\\', 'b']
  else if c = '\x0c' then ['\\', 'f']
  else if c.toNat < 32 then
    ['\\', 'u', '0', '0',
     (if c.toNat / 16 < 10 then Char.ofNat (48 + c.toNat / 16) else Char.ofNat (87 + c.toNat / 16)),
     (if c.toNat % 16 < 10 then Char.ofNat (48 + c.toNat % 16) else Char.ofNat (87 + c.toNat % 16))]
  else [c]

/-- Dump a string as a JSON string literal. -/
def jsonDumpStr (s : String) : String :=
  "\"" ++ String.mk ((s.data.map jsonEscChar).flatten) ++ "\""

mutual

/-- `json.dumps(v, ensure_ascii=False, separators=(",", ":"), default=str)`
on a Python value, as used by `summarize_incident_payload`: compact
separators, and unserialisable objects fall back to their `str()` text. -/
def pyJsonDumps : PyVal → String
  | .pnone => "null"
  | .bool b => if b then "true" else "false"
  | .int n => toString n
  | .str s => jsonDumpStr s
  | .list xs => "[" ++ pyJsonDumpsList xs ++ "]"
  | .dict kvs => "\x7b" ++ pyJsonDumpsDict kvs ++ "\x7d"
  | .obj a => jsonDumpStr (pyStr (.obj a))

/-- Comma-joined compact dumps of list items. -/
def pyJsonDumpsList : List PyVal → String
  | [] => ""
  | [x] => pyJsonDumps x
  | x :: y :: rest => pyJsonDumps x ++ "," ++ pyJsonDumpsList (y :: rest)

/-- Comma-joined compact `"k":v` dumps of dict items. -/
def pyJsonDumpsDict : List (String × PyVal) → String
  | [] => ""
  | [(k, v)] => jsonDumpStr k ++ ":" ++ pyJsonDumps v
  | (k, v) :: p :: rest =>
    jsonDumpStr k ++ ":" ++ pyJsonDumps v ++ "," ++ pyJsonDumpsDict (p :: rest)

end

mutual

/-- Python `str(v)` on a parsed JSON value (numbers keep their lexeme;
floating-point reformatting is not modelled). -/
def jStr : JVal → String
  | .str s => s
  | v => jRepr v

/-- Python `repr(v)` on a parsed JSON value. -/
def jRepr : JVal → String
  | .null => "None"
  | .bool b => if b then "True" else "False"
  | .num s => s
  | .str s => oneQuote ++ s ++ oneQuote
  | .arr xs => "[" ++ jReprList xs ++ "]"
  | .obj kvs => "\x7b" ++ jReprDict kvs ++ "\x7d"

/-- Comma-joined reprs of JSON array items. -/
def jReprList : List JVal → String
  | [] => ""
  | [x] => jRepr x
  | x :: y :: rest => jRepr x ++ ", " ++ jReprList (y :: rest)

/-- Comma-joined `'k': v` reprs of JSON object members. -/
def jReprDict : List (String × JVal) → String
  | [] => ""
  | [(k, v)] => oneQuote ++ k ++ oneQuote ++ ": " ++ jRepr v
  | (k, v) :: p :: rest => oneQuote ++ k ++ oneQuote ++ ": " ++ jRepr v ++ ", " ++ jReprDict (p :: rest)

end

/-- Indentation prefix used by `json.dumps(..., indent=2)`. -/
def jIndent (level : Nat) : String := String.mk (List.replicate (2 * level) ' ')

mutual

/-- `json.dumps(v, indent=2)` on a parsed JSON value (default separators with
indent: `","` between items, `": "` between key and value). -/
def jsonDumpsIndent : JVal → Nat → String
  | .null, _ => "null"
  | .bool b, _ => if b then "true" else "false"
  | .num s, _ => s
  | .str s, _ => jsonDumpStr s
  | .arr [], _ => "[]"
  | .arr (x :: rest), level =>
    "[\n" ++ String.intercalate ",\n"
        ((jsonDumpsIndentList (x :: rest) (level + 1)).map (fun t => jIndent (level + 1) ++ t)) ++
      "\n" ++ jIndent level ++ "]"
  | .obj [], _ => "\x7b\x7d"
  | .obj (kv :: rest), level =>
    "\x7b\n" ++ String.intercalate ",\n"
        ((jsonDumpsIndentObj (kv :: rest) (level + 1)).map (fun t => jIndent (level + 1) ++ t)) ++
      "\n" ++ jIndent level ++ "\x7d"

/-- Renders each array item at the given level. -/
def jsonDumpsIndentList : List JVal → Nat → List String
  | [], _ => []
  | x :: rest, level => jsonDumpsIndent x level :: jsonDumpsIndentList rest level

/-- Renders each object member as `"k": v` at the given level. -/
def jsonDumpsIndentObj : List (String × JVal) → Nat → List String
  | [], _ => []
  | (k, v) :: rest, level =>
    (jsonDumpStr k ++ ": " ++ jsonDumpsIndent v level) :: jsonDumpsIndentObj rest level

end

/-- Escape of one character by `html.escape` (quote=True default): `&`, `<`,
`>`, double and single quotes become entities. -/
def escChar (c : Char) : List Char :=
  if c = '&' then "&amp;".data
  else if c = '<' then "&lt;".data
  else if c = '>' then "&gt;".data
  else if c = '"' then "&quot;".data
  else if c = '\'' then "&#x27;".data
  else [c]

/-- List-level `html.escape`. -/
def escapeL (cs : List Char) : List Char := (cs.map escChar).flatten

/-- Python `html.escape(s)`. -/
def htmlEscape (s : String) : String := String.mk (escapeL s.data)

/-- Splits a character list at its first backtick, when one exists. -/
def splitAtTick : List Char → Option (List Char × List Char)
  | [] => Option.none
  | c :: rest =>
    if c = tickChar then some ([], rest)
    else (splitAtTick rest).map (fun p => (c :: p.1, p.2))

/-- Finds the next inline-code span, mirroring one regex match of a
backtick-pair with non-empty backtick-free content: returns the text before
the span, the span content, and the text after the closing backtick.  An
opening backtick immediately followed by another backtick cannot start a
match and is treated as ordinary text, as the regex scan does. -/
def findSpan : List Char → Option (List Char × List Char × List Char)
  | [] => Option.none
  | c :: rest =>
    if c = tickChar then
      match splitAtTick rest with
      | some (before, after) =>
        if before.isEmpty then
          match findSpan rest with
          | some (p, mid, r) => some (c :: p, mid, r)
          | Option.none => Option.none
        else some ([], before, after)
      | Option.none => Option.none
    else
      match findSpan rest with
      | some (p, mid, r) => some (c :: p, mid, r)
      | Option.none => Option.none

/-- Fuel-driven worker for the inline-code escaper: each found span consumes
at least two characters of the input, so fuel equal to the input length can
never run out; the fuel-exhausted branch (plain escaping) is unreachable. -/
def renderInlineAux : Nat → List Char → String
  | 0, cs => String.mk (escapeL cs)
  | fuel + 1, cs =>
    match findSpan cs with
    | some (pre, mid, rest) =>
      String.mk (escapeL pre) ++ "<code>" ++ String.mk (escapeL mid) ++ "</code>" ++
        renderInlineAux fuel rest
    | Option.none => String.mk (escapeL cs)

/-- Model of `_render_inline_code_escaped`: HTML-escape text outside
backtick spans, wrap and escape span contents (callers always pass `str`,
so the `str()` coercion branch is omitted). -/
def renderInlineCodeEscaped (text : String) : String :=
  renderInlineAux text.length text.data

/-- Python `str.splitlines()` restricted to the line breaks the code can
meet: `\n`, `\r\n` and `\r`. -/
def splitlinesAux : List Char → List Char → List String
  | [], cur => if cur.isEmpty then [] else [String.mk cur.reverse]
  | '\n' :: rest, cur => String.mk cur.reverse :: splitlinesAux rest []
  | '\x0d' :: '\n' :: rest, cur => String.mk cur.reverse :: splitlinesAux rest []
  | '\x0d' :: rest, cur => String.mk cur.reverse :: splitlinesAux rest []
  | c :: rest, cur => splitlinesAux rest (c :: cur)

/-- Python `text.splitlines()`. -/
def pySplitlines (text : String) : List String := splitlinesAux text.data []

/-- Python `line.rstrip("\r")`. -/
def rstripCR (s : String) : String :=
  String.mk ((s.data.reverse.dropWhile (fun c => c == '\x0d')).reverse)

/-- String made of three backticks (the fence marker). -/
def fenceMarker : String := String.mk [tickChar, tickChar, tickChar]

/-- One pass of the renderer state machine over the remaining lines, carrying
the `in_list` and `in_code` flags and emitting HTML parts; mirrors the loop
body of `render_simple_markdown_to_html` including its final force-closes. -/
def mdLines : List String → Bool → Bool → List String
  | [], inList, inCode =>
    (if inList then ["</ul>"] else []) ++ (if inCode then ["</code></pre>"] else [])
  | raw :: rest, inList, inCode =>
    let line := rstripCR raw
    let strippedForFence := pyStrip line
    if pyStartsWith strippedForFence fenceMarker then
      if inCode then "</code></pre>" :: mdLines rest inList false
      else
        (if inList then ["</ul>"] else []) ++
          ("<pre><code>" :: mdLines rest false true)
    else if inCode then
      htmlEscape line :: mdLines rest inList true
    else
      let stripped := pyStrip line
      if pyStartsWith stripped "* " || pyStartsWith stripped "- " then
        let content := String.mk (stripped.data.drop 2)
        let item := "<li>" ++ renderInlineCodeEscaped content ++ "</li>"
        if inList then item :: mdLines rest true false
        else "<ul>" :: item :: mdLines rest true false
      else
        let afterClose := if inList then ["</ul>"] else []
        if stripped = "" then afterClose ++ ("<br/>" :: mdLines rest false false)
        else afterClose ++
          (("<p>" ++ renderInlineCodeEscaped line ++ "</p>") :: mdLines rest false false)

/-- Model of `render_simple_markdown_to_html`. -/
def renderSimpleMarkdownToHtml (text : String) : String :=
  if text = "" then ""
  else String.intercalate "\n" (mdLines (pySplitlines text) false false)

/-- Inner scan of one message item's content entries (attribute style):
`for c in content_list: text = getattr(c, "text", None); if text: return text`. -/
def firstTruthyText (cs : List PyVal) : Option PyVal :=
  cs.findSome? (fun c =>
    let text := pyGetattrD c "text"
    if pyTruthy text then some text else Option.none)

/-- Reverse scan over the output items (attribute style), mirroring the first
loop of `extract_output_text`: the items arrive already reversed; a message
item with truthy content is inspected, and when it holds no truthy text the
scan moves on to the next (earlier) item.  Iterating a truthy non-iterable
content raises, aborting the whole `try` block. -/
def scanItems : List PyVal → Except PyErr (Option PyVal)
  | [] => .ok Option.none
  | item :: rest =>
    let itemType := pyGetattrD item "type"
    let contentList := pyGetattrD item "content"
    if pyEqStr itemType "message" && pyTruthy contentList then
      match pyIter contentList with
      | .error e => .error e
      | .ok cs =>
        match firstTruthyText cs with
        | some text => .ok (some text)
        | Option.none => scanItems rest
    else scanItems rest

/-- Body of the `try` block of `extract_output_text`: the attribute-based
output scan followed by the `output_text` check; `.ok (some t)` is an early
`return t`, `.ok none` falls through, `.error` is the swallowed exception. -/
def extractTryBlock (result : PyVal) : Except PyErr (Option PyVal) :=
  let outputAttr := pyGetattr result "output"
  let step1 : Except PyErr (Option PyVal) :=
    match outputAttr with
    | some out =>
      if pyTruthy out then
        match pyReversed out with
        | .error e => .error e
        | .ok items => scanItems items
      else .ok Option.none
    | Option.none => .ok Option.none
  match step1 with
  | .error e => .error e
  | .ok (some t) => .ok (some t)
  | .ok Option.none =>
    match pyGetattr result "output_text" with
    | some outputText =>
      if isPyStr outputText && pyTruthy outputText then .ok (some outputText)
      else .ok Option.none
    | Option.none => .ok Option.none

/-- Forward scan of one dict-style message item's content entries:
`text = c.get("text")` raises on a non-dict entry. -/
def firstTextDict : List PyVal → Except PyErr (Option PyVal)
  | [] => .ok Option.none
  | c :: rest =>
    match pyDictGet c "text" with
    | .error e => .error e
    | .ok textOpt =>
      let text := textOpt.getD .pnone
      if pyTruthy text then .ok (some text) else firstTextDict rest

/-- Reverse scan over a plain dict's output list, mirroring the second loop
of `extract_output_text`; this loop runs outside any `try`, so its attribute
and type errors propagate. -/
def scanDictItems : List PyVal → Except PyErr (Option PyVal)
  | [] => .ok Option.none
  | item :: rest =>
    match pyDictGet item "type" with
    | .error e => .error e
    | .ok typeOpt =>
      if pyEqStr (typeOpt.getD .pnone) "message" then
        match pyDictGet item "content" with
        | .error e => .error e
        | .ok contentOpt =>
          match pyIter (contentOpt.getD (.list [])) with
          | .error e => .error e
          | .ok cs =>
            match firstTextDict cs with
            | .error e => .error e
            | .ok (some t) => .ok (some t)
            | .ok Option.none => scanDictItems rest
      else scanDictItems rest

/-- Model of `extract_output_text`: the guarded attribute-based probes, then
the unguarded dict mirror, then `str(result)`.  The returned Python value is
whatever truthy `text` field was found (not necessarily a string). -/
def extractOutputText (result : PyVal) : Except PyErr PyVal :=
  match extractTryBlock result with
  | .ok (some t) => .ok t
  | _ =>
    match result with
    | .dict kvs =>
      match kvs.find? (fun p => p.1 == "output") with
      | some (_, .list xs) =>
        match scanDictItems xs.reverse with
        | .error e => .error e
        | .ok (some t) => .ok t
        | .ok Option.none => .ok (.str (pyStr result))
      | _ => .ok (.str (pyStr result))
    | _ => .ok (.str (pyStr result))

/-- One dict-style content entry accepted by the notebook-style collector:
a dict whose `type` is `"output_text"` or `"text"` and whose `text` is a
non-empty string. -/
def pickPiece : PyVal → Option String
  | .dict kvs =>
    let typeVal := ((kvs.find? (fun p => p.1 == "type")).map (·.2)).getD .pnone
    if pyEqStr typeVal "output_text" || pyEqStr typeVal "text" then
      match ((kvs.find? (fun p => p.1 == "text")).map (·.2)).getD (.str "") with
      | .str t => if t != "" then some t else Option.none
      | _ => Option.none
    else Option.none
  | _ => Option.none

/-- Forward collection of pieces over the exported dict's output items:
`item.get("content")` raises on a non-dict item (caught by the caller's
`try`), a falsy content is replaced by `[]`, and iterating a truthy
non-iterable raises. -/
def collectPieces : List PyVal → Except PyErr (List String)
  | [] => .ok []
  | item :: rest =>
    match pyDictGet item "content" with
    | .error e => .error e
    | .ok contentOpt =>
      let contentVal := contentOpt.getD .pnone
      let iterand := if pyTruthy contentVal then contentVal else .list []
      match pyIter iterand with
      | .error e => .error e
      | .ok cs =>
        match collectPieces rest with
        | .error e => .error e
        | .ok more => .ok (cs.filterMap pickPiece ++ more)

/-- Body of the `try` block of `_get_text_from_turn_like_notebook`. -/
def turnTryBlock (turn : PyVal) : Except PyErr (Option PyVal) :=
  let t := pyGetattrD turn "output_text"
  if isPyStr t && (pyStrip (pyStr t) != "") then .ok (some t)
  else
    let d : Option PyVal :=
      match pyGetattr turn "to_dict" with
      | some exported => some exported
      | Option.none => if isPyDict turn then some turn else Option.none
    match d with
    | some (.dict kvs) =>
      let outputVal := ((kvs.find? (fun p => p.1 == "output")).map (·.2)).getD .pnone
      let iterand := if pyTruthy outputVal then outputVal else .list []
      match pyIter iterand with
      | .error e => .error e
      | .ok items =>
        match collectPieces items with
        | .error e => .error e
        | .ok pieces =>
          if !pieces.isEmpty then .ok (some (.str (String.intercalate "\n" pieces)))
          else
            match ((kvs.find? (fun p => p.1 == "text")).map (·.2)).getD .pnone with
            | .str t2 => if pyStrip t2 != "" then .ok (some (.str t2)) else .ok Option.none
            | _ => .ok Option.none
    | _ => .ok Option.none

/-- Model of `_get_text_from_turn_like_notebook`: the guarded notebook-style
probes, falling back to the generic extractor on a miss or a swallowed
exception. -/
def getTextFromTurn (turn : PyVal) : Except PyErr PyVal :=
  match turnTryBlock turn with
  | .ok (some t) => .ok t
  | _ => extractOutputText turn

/-- Word characters (plus dash) eaten by the fence-stripping pattern after a
backtick run, mirroring `[\w-]*` (ASCII subset). -/
def isWordDash (c : Char) : Bool := c.isAlphanum || c = '_' || c = '-'

/-- Fuel-driven worker for `fenceStrip`; every step consumes at least one
character, so fuel equal to the input length never runs out. -/
def fenceStripAux : Nat → List Char → List Char
  | 0, cs => cs
  | _ + 1, [] => []
  | fuel + 1, c :: rest =>
    if c = tickChar then
      let run := (c :: rest).takeWhile (fun x => x == tickChar)
      if run.length ≥ 3 then
        fenceStripAux fuel (((c :: rest).drop run.length).dropWhile isWordDash)
      else run ++ fenceStripAux fuel ((c :: rest).drop run.length)
    else c :: fenceStripAux fuel rest

/-- Model of the substitution removing code-fence markers: each maximal run
of three or more backticks, together with a following language tag, is
deleted; shorter runs are kept. -/
def fenceStrip (cs : List Char) : List Char := fenceStripAux cs.length cs

/-- Start marker of the bracketed JSON region. -/
def jsonStartMarker : String := "### JSON_START"

/-- End marker of the bracketed JSON region. -/
def jsonEndMarker : String := "### JSON_END"

/-- Anchor key searched by the third extraction strategy. -/
def anchorKey : String := "proposed_remediation_via_aap"

/-- Pre-normalisation of the correlation text for structural search: strip
fence markers, then turn literal break tags into newlines. -/
def normalizeForJson (cs : List Char) : List Char :=
  replaceSubL "<br>".data "\n".data (replaceSubL "<br/>".data "\n".data (fenceStrip cs))

/-- First index at or after `e` holding an opening brace. -/
def firstBraceFrom (cs : List Char) (e : Nat) : Option Nat :=
  (findSub [obraceChar] (cs.drop e)).map (· + e)

/-- Last index strictly below `q` holding a closing brace. -/
def lastCloseBefore (cs : List Char) (q : Nat) : Option Nat :=
  ((List.range q).filter (fun j => cs.get? j == some cbraceChar)).getLast?

/-- Group captured by the marker-region search: after the first start
marker, the group runs from the first following opening brace to the last
closing brace that still has an end marker after it (the greedy inner
`{...}` of the pattern); when the first start-marker occurrence admits no
such span, no later one can, matching the regex. -/
def markerGroup (cs : List Char) : Option (List Char) :=
  match findSub jsonStartMarker.data cs with
  | some p =>
    match lastSub jsonEndMarker.data cs with
    | some q =>
      match lastCloseBefore cs q with
      | some j =>
        match firstBraceFrom cs (p + jsonStartMarker.length) with
        | some i => if i < j then some ((cs.drop i).take (j - i + 1)) else Option.none
        | Option.none => Option.none
      | Option.none => Option.none
    | Option.none => Option.none
  | Option.none => Option.none

/-- Shortest brace-terminated prefix such that, after optional whitespace, a
closing fence follows: the lazy body of the fenced-JSON pattern. -/
def lazyCloseFence : List Char → Option (List Char)
  | [] => Option.none
  | c :: rest =>
    if c = cbraceChar && fenceMarker.data.isPrefixOf (rest.dropWhile pyIsSpace) then
      some []
    else (lazyCloseFence rest).map (fun p => c :: p)

/-- Opening tag of an explicitly JSON-tagged fenced block. -/
def fencedTag : List Char := fenceMarker.data ++ "json".data

/-- Fuel-driven scan over occurrences of the fenced-JSON tag. -/
def fencedAux : Nat → List Char → Option (List Char)
  | 0, _ => Option.none
  | fuel + 1, cs =>
    match findSub fencedTag cs with
    | some p =>
      let after := (cs.drop (p + fencedTag.length)).dropWhile pyIsSpace
      match after with
      | c :: body =>
        if c = obraceChar then
          match lazyCloseFence body with
          | some inner => some (obraceChar :: (inner ++ [cbraceChar]))
          | Option.none => fencedAux fuel (cs.drop (p + 1))
        else fencedAux fuel (cs.drop (p + 1))
      | [] => fencedAux fuel (cs.drop (p + 1))
    | Option.none => Option.none

/-- Group captured by the fenced-JSON search on the normalised text. -/
def fencedCandidate (cs : List Char) : Option (List Char) := fencedAux cs.length cs

/-- Brace-balance scan of the third strategy: walk forward counting braces
and stop after the closing brace that returns the balance to zero, yielding
the exclusive end index. -/
def braceScanAux : List Char → Int → Nat → Option Nat
  | [], _, _ => Option.none
  | c :: rest, bal, j =>
    if c = obraceChar then braceScanAux rest (bal + 1) (j + 1)
    else if c = cbraceChar then
      if bal - 1 = 0 then some (j + 1) else braceScanAux rest (bal - 1) (j + 1)
    else braceScanAux rest bal (j + 1)

/-- Third extraction strategy: around the anchor key when present (backward
scan to the nearest opening brace, forward brace-balance scan), otherwise
over the whole text; the stripped candidate is parsed when it is
brace-delimited. -/
def stage3 (cs : List Char) : Option JVal :=
  let se : Nat × Nat :=
    match findSub anchorKey.data cs with
    | some k =>
      let s := ((((List.range (k + 1)).filter
        (fun i => cs.get? i == some obraceChar)).getLast?).getD 0)
      let e := (braceScanAux (cs.drop s) 0 s).getD cs.length
      (s, e)
    | Option.none => (0, cs.length)
  let candidate := pyStripL ((cs.drop se.1).take (se.2 - se.1))
  if candidate.head? == some obraceChar && candidate.getLast? == some cbraceChar then
    jsonLoads (String.mk candidate)
  else Option.none

/-- Model of the dual-output extraction of `_run_pipeline` (the `split`
contract): returns the explanation text and the extracted findings, running
the marker-region, fenced-block and anchor-key strategies in order. -/
def splitFindings (rawText : String) : String × Option JVal :=
  let n := normalizeForJson rawText.data
  let markerRes := markerGroup n
  let explanation :=
    match markerRes with
    | some _ =>
      match findSub jsonStartMarker.data rawText.data with
      | some p => pyStrip (String.mk (rawText.data.take p))
      | Option.none => rawText
    | Option.none => rawText
  let j1 : Option JVal :=
    match markerRes with
    | some g => jsonLoads (String.mk (pyStripL g))
    | Option.none => Option.none
  let j2 : Option JVal :=
    match j1 with
    | some v => some v
    | Option.none =>
      match fencedCandidate n with
      | some c => jsonLoads (String.mk (pyStripL c))
      | Option.none => Option.none
  let j3 : Option JVal :=
    match j2 with
    | some v => some v
    | Option.none => stage3 n
  (explanation, j3)

/-- Python `s.replace(old, new)` at string level. -/
def pyReplace (s old new : String) : String :=
  String.mk (replaceSubL old.data new.data s.data)

/-- Heading of the probable-cause section. -/
def hProbable : String := "<h4>1) Probable cause</h4>"

/-- Heading of the evidence-mapping section. -/
def hEvidence : String := "<h4>2) Evidence mapping</h4>"

/-- Heading of the next-steps section. -/
def hNextSteps : String := "<h4>3) Next steps</h4>"

/-- Heading of the proposed-remediation section. -/
def hProposed : String := "<h4>4) Proposed remediation via AAP</h4>"

/-- Heading of the key-KB-evidence section. -/
def hKb : String := "<h4>5) Key KB evidence</h4>"

/-- Heading of the reference-document section. -/
def hRefDoc : String := "<h4>6) Reference document</h4>"

/-- Field lookup with a falsy-replacing default: `rag_json.get(k) or dflt`. -/
def jGetOr (j : JVal) (key : String) (dflt : JVal) : JVal :=
  let v := (jGet j key).getD JVal.null
  if jTruthy v then v else dflt

/-- Command collection of the next-steps loop: `(step or {}).get("command")`
raises on a truthy non-dict step; string commands with non-blank content are
collected stripped. -/
def stepsCommands : List JVal → Except PyErr (List String)
  | [] => .ok []
  | step :: rest =>
    let stepOr := if jTruthy step then step else JVal.obj []
    match stepOr with
    | .obj kvs =>
      match stepsCommands rest with
      | .error e => .error e
      | .ok more =>
        match (jGet (JVal.obj kvs) "command").getD JVal.null with
        | .str s => if pyStrip s != "" then .ok (pyStrip s :: more) else .ok more
        | _ => .ok more
    | _ => .error .attrError

/-- Evidence-mapping chunk of the part list. -/
def evidenceChunk (evidence : JVal) : List String :=
  match evidence with
  | .arr items =>
    if items.isEmpty then []
    else hEvidence :: "<ul>" ::
      (items.map (fun it => "<li>" ++ htmlEscape (jStr it) ++ "</li>") ++ ["</ul>"])
  | _ => []

/-- Next-steps chunk of the part list (heading plus optional command block). -/
def nextStepsChunk (nextSteps : JVal) : Except PyErr (List String) :=
  match nextSteps with
  | .arr items =>
    if items.isEmpty then .ok []
    else
      match stepsCommands items with
      | .error e => .error e
      | .ok cmds =>
        .ok (hNextSteps ::
          (if cmds.isEmpty then []
           else ["<pre><code>" ++ htmlEscape (String.intercalate "\n" cmds) ++ "</code></pre>"]))
  | _ => .ok []

/-- Proposed-remediation chunk of the part list. -/
def proposedChunk (proposed : JVal) : List String :=
  match proposed with
  | .obj kvs =>
    if kvs.isEmpty then []
    else [hProposed,
      "<pre><code>" ++ htmlEscape (jsonDumpsIndent (JVal.obj kvs) 0) ++ "</code></pre>"]
  | _ => []

/-- Key-KB-evidence chunk of the part list, with the fallback-term
substitution applied to each stringified item before escaping. -/
def kbChunk (kb : JVal) : List String :=
  match kb with
  | .arr items =>
    if items.isEmpty then []
    else hKb :: "<ul>" ::
      (items.map (fun it =>
        "<li>" ++ htmlEscape (pyReplace (jStr it) "canonical fallback" "project documentation") ++ "</li>") ++
       ["</ul>"])
  | _ => []

/-- Reference-document chunk of the part list. -/
def refDocChunk (refDoc : JVal) : List String :=
  match refDoc with
  | .str s =>
    if pyStrip s != "" then
      [hRefDoc, "<p><em>" ++ htmlEscape (pyStrip s) ++ "</em></p>"]
    else []
  | _ => []

/-- Field `probable_cause` with its falsy default (`get(...) or ""`). -/
def probableOf (j : JVal) : JVal := jGetOr j "probable_cause" (JVal.str "")

/-- Field `evidence_mapping` with its falsy default. -/
def evidenceOf (j : JVal) : JVal := jGetOr j "evidence_mapping" (JVal.arr [])

/-- Field `next_steps` with its falsy default. -/
def nextStepsOf (j : JVal) : JVal := jGetOr j "next_steps" (JVal.arr [])

/-- Field `proposed_remediation_via_aap` with its falsy default. -/
def proposedOf (j : JVal) : JVal := jGetOr j "proposed_remediation_via_aap" (JVal.obj [])

/-- Field `key_kb_evidence` with its falsy default. -/
def kbOf (j : JVal) : JVal := jGetOr j "key_kb_evidence" (JVal.arr [])

/-- Field `reference_document` with its falsy default. -/
def refDocOf (j : JVal) : JVal := jGetOr j "reference_document" (JVal.str "")

/-- Probable-cause body slot: the escaped paragraph when truthy (raising on
a truthy non-string, as `html.escape` does), the empty part otherwise. -/
def probBodyOf (j : JVal) : Except PyErr String :=
  if jTruthy (probableOf j) then
    match probableOf j with
    | .str s => .ok ("<p>" ++ htmlEscape s ++ "</p>")
    | _ => .error .attrError
  else .ok ""

/-- Part list built for a structured findings object by `_run_pipeline`
(lines 453-509): the probable-cause heading is unconditional, its body and
the other five sections are guarded; `html.escape` of a truthy non-string
probable cause raises, as does a truthy non-dict next-steps item. -/
def ragParts (j : JVal) : Except PyErr (List String) :=
  match probBodyOf j with
  | .error e => .error e
  | .ok body =>
    match nextStepsChunk (nextStepsOf j) with
    | .error e => .error e
    | .ok nsParts =>
      .ok (hProbable :: body ::
        (evidenceChunk (evidenceOf j) ++ nsParts ++ proposedChunk (proposedOf j) ++
         kbChunk (kbOf j) ++ refDocChunk (refDocOf j)))

/-- Join of the non-empty parts, as the code's filtered `"\n".join`. -/
def joinParts (parts : List String) : String :=
  String.intercalate "\n" (parts.filter (fun p => p != ""))

/-- Phase-2 section HTML: the structured rendering when the findings are a
non-empty dict, otherwise the markdown fallback over the explanation text. -/
def ragSectionHtml (ragJson : Option JVal) (ragExplanation : String) : Except PyErr String :=
  match ragJson with
  | some (JVal.obj kvs) =>
    if !kvs.isEmpty then
      match ragParts (JVal.obj kvs) with
      | .error e => .error e
      | .ok parts => .ok (joinParts parts)
    else
      .ok (renderSimpleMarkdownToHtml
        (if ragExplanation != "" then ragExplanation else "(no formatted RAG text returned)"))
  | _ =>
    .ok (renderSimpleMarkdownToHtml
      (if ragExplanation != "" then ragExplanation else "(no formatted RAG text returned)"))

/-- Model of `summarize_incident_payload`: compact JSON dump capped at 4000
characters (the dump model cannot fail, so the `except` branch is dead). -/
def summarizeIncidentPayload (payload : PyVal) : String :=
  String.mk ((pyJsonDumps payload).data.take 4000)

/-- Python `a or b` on values. -/
def pyOrV (a b : PyVal) : PyVal := if pyTruthy a then a else b

/-- Dict field access `payload.get(k)` with missing keys as `None`, for a
known dict. -/
def dictGetD (kvs : List (String × PyVal)) (key : String) : PyVal :=
  ((kvs.find? (fun p => p.1 == key)).map (·.2)).getD .pnone

/-- Model of the incident-question derivation of `_run_pipeline`
(lines 302-319): a string payload is stripped; a dict payload is probed by a
truthiness `or`-chain over the five keys and the winner is used only when it
is a string with non-blank content; everything else falls back to the
synthesized question. -/
def deriveIncidentQuestion (payload : PyVal) : String :=
  let fromShape : String :=
    match payload with
    | .str s => if pyStrip s != "" then pyStrip s else ""
    | .dict kvs =>
      let maybeQ :=
        pyOrV (dictGetD kvs "incident_question")
          (pyOrV (dictGetD kvs "question")
            (pyOrV (dictGetD kvs "incident")
              (pyOrV (dictGetD kvs "description")
                (pyOrV (dictGetD kvs "short_description") (.str "")))))
      match maybeQ with
      | .str s => if pyStrip s != "" then pyStrip s else ""
      | _ => ""
    | _ => ""
  if fromShape = "" then
    "Please investigate the following incident.\n" ++ summarizeIncidentPayload payload
  else fromShape

/-!
Claim theorems.  Each claim of CLAIMS.json gets one theorem below; corrected
claims additionally get a closed counterexample refuting the original
wording at a concrete input.
-/

/-- Claim C10: the renderer maps the worked-example input to output whose
tag sequence is exactly
`<ul><li>step one</li></ul><br/><pre><code>kubectl get pods</code></pre>`:
the list closes before the code block opens, the blank line emits the
line-break marker, and the fence lines are not echoed.  The first conjunct
shows the literal output (parts joined with newlines); the second shows the
tag sequence once those join newlines are dropped. -/
theorem claim_C10_thm :
    renderSimpleMarkdownToHtml "* step one\n\n```\nkubectl get pods\n```" =
      "<ul>\n<li>step one</li>\n</ul>\n<br/>\n<pre><code>\nkubectl get pods\n</code></pre>" ∧
    String.mk ((renderSimpleMarkdownToHtml "* step one\n\n```\nkubectl get pods\n```").data.filter
        (fun c => c != '\n')) =
      "<ul><li>step one</li></ul><br/><pre><code>kubectl get pods</code></pre>" :=
  ⟨rfl, rfl⟩

/-- Counterexample to claim C1 as stated: the dict mirror scan runs outside
the `try` block, so a plain dict whose output list holds a non-mapping item
makes `extract_output_text` raise an attribute error instead of returning a
string. -/
theorem claim_C1_cx :
    extractOutputText (PyVal.dict [("output", PyVal.list [PyVal.int 1])]) =
      Except.error PyErr.attrError := rfl

/-- Claim C1 (amended): for every input that is not a plain dict,
`extract_output_text` returns a value and never raises — all failures met
while inspecting attributes are swallowed by the `try` block; only the
unguarded dict-mirror scan can raise, as the counterexample shows. -/
theorem claim_C1_thm (v : PyVal) (h : isPyDict v = false) :
    ∃ u, extractOutputText v = Except.ok u := by
  unfold extractOutputText
  cases htb : extractTryBlock v with
  | error e =>
    simp only [htb]
    cases v with
    | dict kvs => simp [isPyDict] at h
    | pnone => exact ⟨_, rfl⟩
    | bool b => exact ⟨_, rfl⟩
    | int n => exact ⟨_, rfl⟩
    | str s => exact ⟨_, rfl⟩
    | list xs => exact ⟨_, rfl⟩
    | obj attrs => exact ⟨_, rfl⟩
  | ok o =>
    cases o with
    | some t => exact ⟨t, by simp [htb]⟩
    | none =>
      simp only [htb]
      cases v with
      | dict kvs => simp [isPyDict] at h
      | pnone => exact ⟨_, rfl⟩
      | bool b => exact ⟨_, rfl⟩
      | int n => exact ⟨_, rfl⟩
      | str s => exact ⟨_, rfl⟩
      | list xs => exact ⟨_, rfl⟩
      | obj attrs => exact ⟨_, rfl⟩

/-- Witness for claim C1 at a concrete non-dict input. -/
theorem claim_C1_wit : ∃ u, extractOutputText (PyVal.str "hi") = Except.ok u :=
  claim_C1_thm (PyVal.str "hi") rfl

/-- Counterexample to claim C3 as stated: on a text with no start marker and
no anchor key that happens to be a parseable JSON object, the third strategy
still fires (it falls back to the whole text), so `findings` is not null. -/
theorem claim_C3_cx :
    findSub jsonStartMarker.data "\x7b\"a\":1\x7d".data = Option.none ∧
    findSub anchorKey.data (normalizeForJson "\x7b\"a\":1\x7d".data) = Option.none ∧
    (splitFindings "\x7b\"a\":1\x7d").2 = some (JVal.obj [("a", JVal.num "1")]) :=
  ⟨rfl, rfl, rfl⟩

/-- Claim C3 (amended): when the anchor key is absent and the first two
strategies fail, the third strategy considers the whole normalised text:
the stripped text is parsed whenever it is brace-delimited, and `findings`
is null only when that parse also fails. -/
theorem claim_C3_thm (raw : String) (n : List Char)
    (hn : n = normalizeForJson raw.data)
    (hanchor : findSub anchorKey.data n = Option.none)
    (hmarker : (markerGroup n).bind (fun g => jsonLoads (String.mk (pyStripL g))) = Option.none)
    (hfence : (fencedCandidate n).bind (fun c => jsonLoads (String.mk (pyStripL c))) = Option.none) :
    (splitFindings raw).2 =
      (if (pyStripL n).head? == some obraceChar && (pyStripL n).getLast? == some cbraceChar then
        jsonLoads (String.mk (pyStripL n))
      else Option.none) := by
  subst hn
  unfold splitFindings
  cases hm : markerGroup (normalizeForJson raw.data) with
  | some g =>
    simp only [hm, Option.bind] at hmarker ⊢
    simp only [hmarker]
    cases hf : fencedCandidate (normalizeForJson raw.data) with
    | some c =>
      simp only [hf, Option.bind] at hfence ⊢
      simp only [hfence]
      unfold stage3
      simp [hanchor]
    | none =>
      simp only [hf]
      unfold stage3
      simp [hanchor]
  | none =>
    simp only [hm]
    cases hf : fencedCandidate (normalizeForJson raw.data) with
    | some c =>
      simp only [hf, Option.bind] at hfence ⊢
      simp only [hfence]
      unfold stage3
      simp [hanchor]
    | none =>
      simp only [hf]
      unfold stage3
      simp [hanchor]

/-- Witness for claim C3 at the whole-text-JSON input. -/
theorem claim_C3_wit :
    (splitFindings "\x7b\"a\":1\x7d").2 =
      (if (pyStripL (normalizeForJson "\x7b\"a\":1\x7d".data)).head? == some obraceChar &&
          (pyStripL (normalizeForJson "\x7b\"a\":1\x7d".data)).getLast? == some cbraceChar then
        jsonLoads (String.mk (pyStripL (normalizeForJson "\x7b\"a\":1\x7d".data)))
      else Option.none) :=
  claim_C3_thm "\x7b\"a\":1\x7d" (normalizeForJson "\x7b\"a\":1\x7d".data) rfl rfl rfl rfl

/-- Claim C6: when the text holds both a marker region whose captured group
parses as JSON and a fenced JSON block (with valid JSON), `split` returns
the marker-region object as findings — the fenced content is ignored — and
the explanation is the original text truncated at the first start-marker
position (stripped of surrounding whitespace, as the code's `.strip()`
does; the spec's own worked example fixes this reading). -/
theorem claim_C6_thm (raw : String) (n g : List Char) (j : JVal) (p : Nat)
    (cf : List Char) (j2 : JVal)
    (hn : n = normalizeForJson raw.data)
    (hm : markerGroup n = some g)
    (hj : jsonLoads (String.mk (pyStripL g)) = some j)
    (hp : findSub jsonStartMarker.data raw.data = some p)
    (_hfence : fencedCandidate raw.data = some cf)
    (_hj2 : jsonLoads (String.mk (pyStripL cf)) = some j2) :
    splitFindings raw = (pyStrip (String.mk (raw.data.take p)), some j) := by
  subst hn
  unfold splitFindings
  simp [hm, hj, hp]

/-- Witness for claim C6 at a text containing both a valid marker region and
a valid fenced JSON block. -/
theorem claim_C6_wit :
    splitFindings "intro ### JSON_START \x7b\"a\":1\x7d ### JSON_END\n```json\n\x7b\"b\":2\x7d\n```" =
      (pyStrip (String.mk
        ("intro ### JSON_START \x7b\"a\":1\x7d ### JSON_END\n```json\n\x7b\"b\":2\x7d\n```".data.take 6)),
       some (JVal.obj [("a", JVal.num "1")])) :=
  claim_C6_thm "intro ### JSON_START \x7b\"a\":1\x7d ### JSON_END\n```json\n\x7b\"b\":2\x7d\n```"
    (normalizeForJson
      "intro ### JSON_START \x7b\"a\":1\x7d ### JSON_END\n```json\n\x7b\"b\":2\x7d\n```".data)
    ("\x7b\"a\":1\x7d".data) (JVal.obj [("a", JVal.num "1")]) 6
    ("\x7b\"b\":2\x7d".data) (JVal.obj [("b", JVal.num "2")])
    rfl rfl rfl rfl rfl rfl

/-- Claim C7: when all three strategies fail to produce a parseable object,
`split` returns null findings and the full original text as explanation —
except that when the marker-region pattern did match but its JSON failed to
parse, the explanation is the prefix of the original text before the first
start marker (stripped, as the code does). -/
theorem claim_C7_thm (raw : String) (n : List Char)
    (hn : n = normalizeForJson raw.data)
    (hmarker : (markerGroup n).bind (fun g => jsonLoads (String.mk (pyStripL g))) = Option.none)
    (hfence : (fencedCandidate n).bind (fun c => jsonLoads (String.mk (pyStripL c))) = Option.none)
    (hstage3 : stage3 n = Option.none) :
    splitFindings raw =
      ((match markerGroup n, findSub jsonStartMarker.data raw.data with
        | some _, some p => pyStrip (String.mk (raw.data.take p))
        | _, _ => raw),
       Option.none) := by
  subst hn
  unfold splitFindings
  cases hm : markerGroup (normalizeForJson raw.data) with
  | some g =>
    simp only [hm, Option.bind] at hmarker
    cases hf : fencedCandidate (normalizeForJson raw.data) with
    | some c =>
      simp only [hf, Option.bind] at hfence
      cases hp : findSub jsonStartMarker.data raw.data with
      | some p => simp [hm, hf, hp, hmarker, hfence, hstage3]
      | none => simp [hm, hf, hp, hmarker, hfence, hstage3]
    | none =>
      cases hp : findSub jsonStartMarker.data raw.data with
      | some p => simp [hm, hf, hp, hmarker, hstage3]
      | none => simp [hm, hf, hp, hmarker, hstage3]
  | none =>
    cases hf : fencedCandidate (normalizeForJson raw.data) with
    | some c =>
      simp only [hf, Option.bind] at hfence
      simp [hm, hf, hfence, hstage3]
    | none =>
      simp [hm, hf, hstage3]

/-- Witness for claim C7 at a text whose marker region matched but failed to
parse, with the other strategies failing too. -/
theorem claim_C7_wit :
    splitFindings "pre ### JSON_START \x7bbad\x7d ### JSON_END" =
      ((match markerGroup (normalizeForJson "pre ### JSON_START \x7bbad\x7d ### JSON_END".data),
              findSub jsonStartMarker.data "pre ### JSON_START \x7bbad\x7d ### JSON_END".data with
        | some _, some p =>
          pyStrip (String.mk ("pre ### JSON_START \x7bbad\x7d ### JSON_END".data.take p))
        | _, _ => "pre ### JSON_START \x7bbad\x7d ### JSON_END"),
       Option.none) :=
  claim_C7_thm "pre ### JSON_START \x7bbad\x7d ### JSON_END"
    (normalizeForJson "pre ### JSON_START \x7bbad\x7d ### JSON_END".data)
    rfl rfl rfl rfl

/-- Priority-ordered keys probed for the incident question. -/
def questionKeys : List String :=
  ["incident_question", "question", "incident", "description", "short_description"]

/-- Claim-side reading of C5: the first field, in priority order, holding a
non-empty string. -/
def firstNonEmptyStrField (kvs : List (String × PyVal)) : Option String :=
  questionKeys.findSome? (fun k =>
    match dictGetD kvs k with
    | .str s => if s != "" then some s else Option.none
    | _ => Option.none)

/-- First truthy field value, in priority order: what the code's `or`-chain
actually selects. -/
def firstTruthyField (kvs : List (String × PyVal)) : Option PyVal :=
  questionKeys.findSome? (fun k =>
    let v := dictGetD kvs k
    if pyTruthy v then some v else Option.none)

/-- The nested `or`-chain of the code equals the first truthy field with the
empty-string default. -/
theorem orChain_eq_firstTruthyField (kvs : List (String × PyVal)) :
    pyOrV (dictGetD kvs "incident_question")
      (pyOrV (dictGetD kvs "question")
        (pyOrV (dictGetD kvs "incident")
          (pyOrV (dictGetD kvs "description")
            (pyOrV (dictGetD kvs "short_description") (.str ""))))) =
    (firstTruthyField kvs).getD (PyVal.str "") := by
  simp only [firstTruthyField, questionKeys, List.findSome?]
  by_cases h1 : pyTruthy (dictGetD kvs "incident_question") <;>
    by_cases h2 : pyTruthy (dictGetD kvs "question") <;>
      by_cases h3 : pyTruthy (dictGetD kvs "incident") <;>
        by_cases h4 : pyTruthy (dictGetD kvs "description") <;>
          by_cases h5 : pyTruthy (dictGetD kvs "short_description") <;>
            simp [pyOrV, h1, h2, h3, h4, h5]

/-- Counterexample to claim C5 as stated: with `incident_question` holding
the number 5 and `question` holding `"help"`, the first non-empty string
among the fields is `"help"`, but the code's truthiness `or`-chain stops at
the number, fails the string check, and synthesizes the fallback question
instead of consulting the later key. -/
theorem claim_C5_cx :
    firstNonEmptyStrField [("incident_question", PyVal.int 5), ("question", PyVal.str "help")] =
      some "help" ∧
    deriveIncidentQuestion
        (PyVal.dict [("incident_question", PyVal.int 5), ("question", PyVal.str "help")]) ≠
      "help" ∧
    deriveIncidentQuestion
        (PyVal.dict [("incident_question", PyVal.int 5), ("question", PyVal.str "help")]) =
      "Please investigate the following incident.\n\x7b\"incident_question\":5,\"question\":\"help\"\x7d" := by
  refine ⟨rfl, ?_, rfl⟩
  decide

/-- Claim C5 (amended): for a dict payload the code selects the first
*truthy* value among the five keys in priority order (later keys are
consulted only while earlier values are falsy); the derived question is that
value stripped when it is a string with non-blank content, and otherwise —
first truthy value not a string, or blank, or no field truthy — the
size-capped serialised fallback question is synthesized. -/
theorem claim_C5_thm (kvs : List (String × PyVal)) :
    deriveIncidentQuestion (PyVal.dict kvs) =
      (match firstTruthyField kvs with
       | some (PyVal.str s) =>
         if pyStrip s != "" then pyStrip s
         else "Please investigate the following incident.\n" ++
           summarizeIncidentPayload (PyVal.dict kvs)
       | _ =>
         "Please investigate the following incident.\n" ++
           summarizeIncidentPayload (PyVal.dict kvs)) := by
  unfold deriveIncidentQuestion
  dsimp only
  rw [orChain_eq_firstTruthyField]
  cases hf : firstTruthyField kvs with
  | none => simp [pyStrip, pyStripL]
  | some v =>
    cases v with
    | str s =>
      simp only [Option.getD]
      by_cases hs : pyStrip s = "" <;> simp [hs]
    | pnone => simp
    | bool b => simp
    | int n => simp
    | list xs => simp
    | dict kvs2 => simp
    | obj attrs => simp

/-- Claim-side reading of C8: consult only the first item (in the already
reversed order) whose type is `"message"` with truthy content, and take the
first truthy text inside it. -/
def c8ClaimedStage (items : List PyVal) : Option PyVal :=
  match items.find? (fun it =>
      pyEqStr (pyGetattrD it "type") "message" && pyTruthy (pyGetattrD it "content")) with
  | some it =>
    match pyIter (pyGetattrD it "content") with
    | .ok cs => firstTruthyText cs
    | .error _ => Option.none
  | Option.none => Option.none

/-- What the code's loop computes: the first truthy text over *all* message
items with truthy list content, in the given (already reversed) order. -/
def amendedReverseScan (items : List PyVal) : Option PyVal :=
  items.findSome? (fun it =>
    if pyEqStr (pyGetattrD it "type") "message" && pyTruthy (pyGetattrD it "content") then
      match pyGetattrD it "content" with
      | .list cs => firstTruthyText cs
      | _ => Option.none
    else Option.none)

/-- Shape condition under which the scan meets no iteration error: every
message item with truthy content carries a list. -/
def isCleanItems (items : List PyVal) : Bool :=
  items.all (fun it =>
    !(pyEqStr (pyGetattrD it "type") "message" && pyTruthy (pyGetattrD it "content")) ||
      isPyList (pyGetattrD it "content"))

/-- On clean item lists the code's reverse scan computes exactly the
continue-on-miss first-text semantics. -/
theorem scanItems_eq_amended (items : List PyVal) (h : isCleanItems items = true) :
    scanItems items = Except.ok (amendedReverseScan items) := by
  induction items with
  | nil => rfl
  | cons it rest ih =>
    simp only [isCleanItems, List.all_cons, Bool.and_eq_true] at h
    obtain ⟨hhd, htl⟩ := h
    have ihr := ih htl
    simp only [scanItems, amendedReverseScan, List.findSome?]
    by_cases hc : (pyEqStr (pyGetattrD it "type") "message" &&
        pyTruthy (pyGetattrD it "content")) = true
    · simp only [hc, if_pos rfl, if_true]
      rw [hc] at hhd
      simp only [Bool.not_true, Bool.false_or] at hhd
      cases hcv : pyGetattrD it "content" with
      | list cs =>
        simp only [pyIter]
        cases hft : firstTruthyText cs with
        | some t => simp
        | none => simpa [amendedReverseScan] using ihr
      | pnone => rw [hcv] at hhd; simp [isPyList] at hhd
      | bool b => rw [hcv] at hhd; simp [isPyList] at hhd
      | int n => rw [hcv] at hhd; simp [isPyList] at hhd
      | str s => rw [hcv] at hhd; simp [isPyList] at hhd
      | dict kvs => rw [hcv] at hhd; simp [isPyList] at hhd
      | obj attrs => rw [hcv] at hhd; simp [isPyList] at hhd
    · simp only [hc]
      simp only [Bool.not_eq_true] at hc
      simp only [hc, if_false, Bool.false_eq_true]
      simpa [amendedReverseScan] using ihr

/-- Counterexample to claim C8 as stated: with two message items whose later
(reverse-first) one has non-empty content but no truthy text, the claimed
first-matching-item-only rule yields nothing, yet the extractor returns the
text `"early"` that lives in the *earlier* item — the scan does consult
earlier items after reaching a matching message item. -/
theorem claim_C8_cx :
    extractOutputText (PyVal.obj [("output", PyVal.list
      [PyVal.obj [("type", PyVal.str "message"),
                  ("content", PyVal.list [PyVal.obj [("text", PyVal.str "early")]])],
       PyVal.obj [("type", PyVal.str "message"),
                  ("content", PyVal.list [PyVal.obj [("note", PyVal.str "x")]])]])]) =
      Except.ok (PyVal.str "early") ∧
    c8ClaimedStage
      [PyVal.obj [("type", PyVal.str "message"),
                  ("content", PyVal.list [PyVal.obj [("text", PyVal.str "early")]])],
       PyVal.obj [("type", PyVal.str "message"),
                  ("content", PyVal.list [PyVal.obj [("note", PyVal.str "x")]])]].reverse =
      Option.none :=
  ⟨rfl, rfl⟩

/-- Claim C8 (amended): the extractor scans the output sequence in reverse
and each matching message item's content forward, returning the first
non-empty text found; when a message item's content has no truthy text the
scan *continues* with earlier items (only once a text is returned is the
scan done). -/
theorem claim_C8_thm (result : PyVal) (xs : List PyVal) (t : PyVal)
    (hout : pyGetattr result "output" = some (PyVal.list xs))
    (hne : xs.isEmpty = false)
    (hclean : isCleanItems xs.reverse = true)
    (hfound : amendedReverseScan xs.reverse = some t) :
    extractOutputText result = Except.ok t := by
  unfold extractOutputText extractTryBlock
  rw [hout]
  have hrev : pyReversed (PyVal.list xs) = Except.ok xs.reverse := rfl
  simp only [pyTruthy, hne, Bool.not_false, if_true, hrev,
    scanItems_eq_amended xs.reverse hclean, hfound]

/-- Witness for claim C8 at the two-message-item input: the text of the
earlier item is returned after the later item misses. -/
theorem claim_C8_wit :
    extractOutputText (PyVal.obj [("output", PyVal.list
      [PyVal.obj [("type", PyVal.str "message"),
                  ("content", PyVal.list [PyVal.obj [("text", PyVal.str "early")]])],
       PyVal.obj [("type", PyVal.str "message"),
                  ("content", PyVal.list [PyVal.obj [("note", PyVal.str "x")]])]])]) =
      Except.ok (PyVal.str "early") :=
  claim_C8_thm _ _ _ rfl rfl rfl rfl

/-- Dict-like export selection of the turn variant: the `to_dict` result
when the attribute exists, else the turn itself when it is a dict. -/
def exportOf (turn : PyVal) : Option PyVal :=
  match pyGetattr turn "to_dict" with
  | some e => some e
  | Option.none => if isPyDict turn then some turn else Option.none

/-- Claim-side reading of C4's second stage: the dict export scanned by the
generic extractor's output-scan rule — reverse scan, first message item with
non-empty content, first non-empty text of that item. -/
def c4ClaimedDictScan (kvs : List (String × PyVal)) : Option PyVal :=
  match dictGetD kvs "output" with
  | .list xs =>
    (xs.reverse.find? (fun it =>
        match it with
        | .dict ikvs =>
          pyEqStr (dictGetD ikvs "type") "message" && pyTruthy (dictGetD ikvs "content")
        | _ => false)).bind (fun it =>
      match it with
      | .dict ikvs =>
        match dictGetD ikvs "content" with
        | .list cs =>
          cs.findSome? (fun c =>
            match c with
            | .dict ckvs =>
              let tx := dictGetD ckvs "text"
              if pyTruthy tx then some tx else Option.none
            | _ => Option.none)
        | _ => Option.none
      | _ => Option.none)
  | _ => Option.none

/-- Claim-side reading of C4's whole staging: output_text, then the claimed
reverse scan of the export, then the export's text field, then the generic
extractor — first success wins. -/
def c4Claimed (turn : PyVal) : Except PyErr PyVal :=
  let t := pyGetattrD turn "output_text"
  if isPyStr t && (pyStrip (pyStr t) != "") then .ok t
  else
    match exportOf turn with
    | some (.dict kvs) =>
      match c4ClaimedDictScan kvs with
      | some tx => .ok tx
      | Option.none =>
        match dictGetD kvs "text" with
        | .str t2 => if pyStrip t2 != "" then .ok (.str t2) else extractOutputText turn
        | _ => extractOutputText turn
    | _ => extractOutputText turn

/-- Pieces contributed by one output item in the notebook-style collector. -/
def pieceOfItem (item : PyVal) : List String :=
  match item with
  | .dict ikvs =>
    let cv := dictGetD ikvs "content"
    (match (if pyTruthy cv then cv else PyVal.list []) with
     | .list cs => cs.filterMap pickPiece
     | _ => [])
  | _ => []

/-- What the code's second stage actually computes: a forward scan over all
output items, collecting every content entry typed `output_text` or `text`
with a non-empty string text, joined with newlines. -/
def forwardJoinScan (kvs : List (String × PyVal)) : Option String :=
  let ov := dictGetD kvs "output"
  match (if pyTruthy ov then ov else PyVal.list []) with
  | .list items =>
    let pieces := (items.map pieceOfItem).flatten
    if pieces.isEmpty then Option.none else some (String.intercalate "\n" pieces)
  | _ => Option.none

/-- Shape condition for the export dict: its truthy output value is a list
of dicts whose truthy content values are lists. -/
def cleanTurnDict (kvs : List (String × PyVal)) : Bool :=
  let ov := dictGetD kvs "output"
  !pyTruthy ov ||
    (match ov with
     | .list items =>
       items.all (fun item =>
         match item with
         | .dict ikvs => !pyTruthy (dictGetD ikvs "content") || isPyList (dictGetD ikvs "content")
         | _ => false)
     | _ => false)

/-- On clean item lists the collector equals the per-item concatenation. -/
theorem collectPieces_eq (items : List PyVal)
    (h : items.all (fun item =>
      match item with
      | .dict ikvs => !pyTruthy (dictGetD ikvs "content") || isPyList (dictGetD ikvs "content")
      | _ => false) = true) :
    collectPieces items = Except.ok ((items.map pieceOfItem).flatten) := by
  induction items with
  | nil => rfl
  | cons item rest ih =>
    simp only [List.all_cons, Bool.and_eq_true] at h
    obtain ⟨hhd, htl⟩ := h
    have ihr := ih htl
    cases item with
    | dict ikvs =>
      simp only at hhd
      simp only [collectPieces, pyDictGet, List.map_cons, List.flatten_cons]
      by_cases hcv : pyTruthy (dictGetD ikvs "content") = true
      · rw [hcv] at hhd
        simp only [Bool.not_true, Bool.false_or] at hhd
        cases hcc : dictGetD ikvs "content" with
        | list cs =>
          rw [hcc] at hcv
          simp only [dictGetD] at hcc
          simp only [hcc, Option.getD_some, hcv, if_true, pyIter, ihr]
          simp [pieceOfItem, dictGetD, hcc, hcv]
        | pnone => rw [hcc] at hhd; simp [isPyList] at hhd
        | bool b => rw [hcc] at hhd; simp [isPyList] at hhd
        | int n => rw [hcc] at hhd; simp [isPyList] at hhd
        | str s => rw [hcc] at hhd; simp [isPyList] at hhd
        | dict kvs2 => rw [hcc] at hhd; simp [isPyList] at hhd
        | obj attrs => rw [hcc] at hhd; simp [isPyList] at hhd
      · simp only [Bool.not_eq_true] at hcv
        have hget : ((ikvs.find? (fun p => p.1 == "content")).map (·.2)).getD .pnone =
            dictGetD ikvs "content" := rfl
        simp only [hget, hcv, Bool.false_eq_true, if_false, pyIter, List.filterMap_nil, ihr]
        simp [pieceOfItem, hcv]
    | pnone => simp at hhd
    | bool b => simp at hhd
    | int n => simp at hhd
    | str s => simp at hhd
    | list xs => simp at hhd
    | obj attrs => simp at hhd

/-- Counterexample to claim C4 as stated: a turn dict whose output items
carry `text`-typed content entries but no `"message"` type tag.  The code's
second stage collects both entries in forward order and joins them
(`"A\nB"`), while the claimed same-as-generic reverse scan finds nothing,
falls through to the generic extractor and would return the string
conversion of the dict — a different value. -/
theorem claim_C4_cx :
    getTextFromTurn (PyVal.dict [("output", PyVal.list
      [PyVal.dict [("content", PyVal.list
          [PyVal.dict [("type", PyVal.str "text"), ("text", PyVal.str "A")]])],
       PyVal.dict [("content", PyVal.list
          [PyVal.dict [("type", PyVal.str "text"), ("text", PyVal.str "B")]])]])]) =
      Except.ok (PyVal.str "A\nB") ∧
    c4Claimed (PyVal.dict [("output", PyVal.list
      [PyVal.dict [("content", PyVal.list
          [PyVal.dict [("type", PyVal.str "text"), ("text", PyVal.str "A")]])],
       PyVal.dict [("content", PyVal.list
          [PyVal.dict [("type", PyVal.str "text"), ("text", PyVal.str "B")]])]])]) =
      Except.ok (PyVal.str (pyStr (PyVal.dict [("output", PyVal.list
        [PyVal.dict [("content", PyVal.list
            [PyVal.dict [("type", PyVal.str "text"), ("text", PyVal.str "A")]])],
         PyVal.dict [("content", PyVal.list
            [PyVal.dict [("type", PyVal.str "text"), ("text", PyVal.str "B")]])]])]))) ∧
    pyStr (PyVal.dict [("output", PyVal.list
      [PyVal.dict [("content", PyVal.list
          [PyVal.dict [("type", PyVal.str "text"), ("text", PyVal.str "A")]])],
       PyVal.dict [("content", PyVal.list
          [PyVal.dict [("type", PyVal.str "text"), ("text", PyVal.str "B")]])]])]) ≠ "A\nB" := by
  refine ⟨rfl, rfl, ?_⟩
  decide

/-- Claim C4 (amended): the turn-variant extractor tries, in order, a
non-empty `output_text` string; then — given a dict export — a *forward*
scan over all its output items collecting every content entry whose type is
`output_text` or `text` with a non-empty string text, joined with newlines;
then the export's top-level `text` field; and finally the generic extractor.
The first stage that succeeds supplies the result (stated under the shape
condition that makes the export scan error-free). -/
theorem claim_C4_thm (turn : PyVal) (kvs : List (String × PyVal))
    (hexp : exportOf turn = some (PyVal.dict kvs))
    (hclean : cleanTurnDict kvs = true) :
    getTextFromTurn turn =
      (if isPyStr (pyGetattrD turn "output_text") &&
          (pyStrip (pyStr (pyGetattrD turn "output_text")) != "") then
        Except.ok (pyGetattrD turn "output_text")
      else
        match forwardJoinScan kvs with
        | some s => Except.ok (PyVal.str s)
        | Option.none =>
          match dictGetD kvs "text" with
          | PyVal.str t2 =>
            if pyStrip t2 != "" then Except.ok (PyVal.str t2) else extractOutputText turn
          | _ => extractOutputText turn) := by
  have hd : (match pyGetattr turn "to_dict" with
      | some e => some e
      | Option.none => if isPyDict turn then some turn else Option.none) =
      some (PyVal.dict kvs) := hexp
  unfold getTextFromTurn turnTryBlock
  by_cases h1 : (isPyStr (pyGetattrD turn "output_text") &&
      (pyStrip (pyStr (pyGetattrD turn "output_text")) != "")) = true
  · simp [h1]
  · simp only [h1, Bool.false_eq_true, if_false, hd]
    have hgetOut : ((kvs.find? (fun p => p.1 == "output")).map (·.2)).getD .pnone =
        dictGetD kvs "output" := rfl
    simp only [hgetOut]
    by_cases hov : pyTruthy (dictGetD kvs "output") = true
    · simp only [cleanTurnDict, hov, Bool.not_true, Bool.false_or] at hclean
      cases hovv : dictGetD kvs "output" with
      | list items =>
        rw [hovv] at hclean
        simp only at hclean
        rw [hovv] at hov
        simp only [hovv, hov, if_true, pyIter, collectPieces_eq items hclean]
        simp only [forwardJoinScan, hovv, hov, if_true]
        by_cases hps : ((items.map pieceOfItem).flatten).isEmpty = true
        · simp only [hps, Bool.not_true, Bool.false_eq_true, if_false, if_true]
          have hgetText : ((kvs.find? (fun p => p.1 == "text")).map (·.2)).getD .pnone =
              dictGetD kvs "text" := rfl
          simp only [hgetText]
          cases htx : dictGetD kvs "text" with
          | str t2 =>
            by_cases ht2 : pyStrip t2 != "" <;> simp [ht2]
          | pnone => simp
          | bool b => simp
          | int n => simp
          | list xs => simp
          | dict kvs2 => simp
          | obj attrs => simp
        · simp [hps]
      | pnone => rw [hovv] at hclean; simp at hclean
      | bool b => rw [hovv] at hclean; simp at hclean
      | int n => rw [hovv] at hclean; simp at hclean
      | str s => rw [hovv] at hclean; simp at hclean
      | dict kvs2 => rw [hovv] at hclean; simp at hclean
      | obj attrs => rw [hovv] at hclean; simp at hclean
    · simp only [Bool.not_eq_true] at hov
      simp only [hov, Bool.false_eq_true, if_false, pyIter, collectPieces, List.isEmpty_nil,
        Bool.not_true, if_false]
      simp only [forwardJoinScan, hov, Bool.false_eq_true, if_false]
      have hgetText : ((kvs.find? (fun p => p.1 == "text")).map (·.2)).getD .pnone =
          dictGetD kvs "text" := rfl
      simp only [hgetText, List.map_nil, List.flatten_nil, List.isEmpty_nil, if_true]
      cases htx : dictGetD kvs "text" with
      | str t2 =>
        by_cases ht2 : pyStrip t2 != "" <;> simp [ht2]
      | pnone => simp
      | bool b => simp
      | int n => simp
      | list xs => simp
      | dict kvs2 => simp
      | obj attrs => simp

/-- Witness for claim C4 at the two-item forward-join input. -/
theorem claim_C4_wit :
    getTextFromTurn (PyVal.dict [("output", PyVal.list
      [PyVal.dict [("content", PyVal.list
          [PyVal.dict [("type", PyVal.str "text"), ("text", PyVal.str "A")]])],
       PyVal.dict [("content", PyVal.list
          [PyVal.dict [("type", PyVal.str "text"), ("text", PyVal.str "B")]])]])]) =
      (if isPyStr (pyGetattrD (PyVal.dict [("output", PyVal.list
            [PyVal.dict [("content", PyVal.list
                [PyVal.dict [("type", PyVal.str "text"), ("text", PyVal.str "A")]])],
             PyVal.dict [("content", PyVal.list
                [PyVal.dict [("type", PyVal.str "text"), ("text", PyVal.str "B")]])]])])
            "output_text") &&
          (pyStrip (pyStr (pyGetattrD (PyVal.dict [("output", PyVal.list
            [PyVal.dict [("content", PyVal.list
                [PyVal.dict [("type", PyVal.str "text"), ("text", PyVal.str "A")]])],
             PyVal.dict [("content", PyVal.list
                [PyVal.dict [("type", PyVal.str "text"), ("text", PyVal.str "B")]])]])])
            "output_text")) != "") then
        Except.ok (pyGetattrD (PyVal.dict [("output", PyVal.list
          [PyVal.dict [("content", PyVal.list
              [PyVal.dict [("type", PyVal.str "text"), ("text", PyVal.str "A")]])],
           PyVal.dict [("content", PyVal.list
              [PyVal.dict [("type", PyVal.str "text"), ("text", PyVal.str "B")]])]])])
          "output_text")
      else
        match forwardJoinScan [("output", PyVal.list
          [PyVal.dict [("content", PyVal.list
              [PyVal.dict [("type", PyVal.str "text"), ("text", PyVal.str "A")]])],
           PyVal.dict [("content", PyVal.list
              [PyVal.dict [("type", PyVal.str "text"), ("text", PyVal.str "B")]])]])] with
        | some s => Except.ok (PyVal.str s)
        | Option.none =>
          match dictGetD [("output", PyVal.list
            [PyVal.dict [("content", PyVal.list
                [PyVal.dict [("type", PyVal.str "text"), ("text", PyVal.str "A")]])],
             PyVal.dict [("content", PyVal.list
                [PyVal.dict [("type", PyVal.str "text"), ("text", PyVal.str "B")]])]])] "text" with
          | PyVal.str t2 =>
            if pyStrip t2 != "" then Except.ok (PyVal.str t2)
            else extractOutputText (PyVal.dict [("output", PyVal.list
              [PyVal.dict [("content", PyVal.list
                  [PyVal.dict [("type", PyVal.str "text"), ("text", PyVal.str "A")]])],
               PyVal.dict [("content", PyVal.list
                  [PyVal.dict [("type", PyVal.str "text"), ("text", PyVal.str "B")]])]])])
          | _ => extractOutputText (PyVal.dict [("output", PyVal.list
              [PyVal.dict [("content", PyVal.list
                  [PyVal.dict [("type", PyVal.str "text"), ("text", PyVal.str "A")]])],
               PyVal.dict [("content", PyVal.list
                  [PyVal.dict [("type", PyVal.str "text"), ("text", PyVal.str "B")]])]])])) :=
  claim_C4_thm
    (PyVal.dict [("output", PyVal.list
      [PyVal.dict [("content", PyVal.list
          [PyVal.dict [("type", PyVal.str "text"), ("text", PyVal.str "A")]])],
       PyVal.dict [("content", PyVal.list
          [PyVal.dict [("type", PyVal.str "text"), ("text", PyVal.str "B")]])]])])
    [("output", PyVal.list
      [PyVal.dict [("content", PyVal.list
          [PyVal.dict [("type", PyVal.str "text"), ("text", PyVal.str "A")]])],
       PyVal.dict [("content", PyVal.list
          [PyVal.dict [("type", PyVal.str "text"), ("text", PyVal.str "B")]])]])]
    rfl rfl

/-- Output language of the inline-code escaper: a final escaped chunk, or an
escaped chunk followed by an escaped, tag-wrapped span and more output. -/
inductive EscOut : String → Prop where
  | last (t : List Char) : EscOut (String.mk (escapeL t))
  | span (a c : List Char) (r : String) : EscOut r →
      EscOut (String.mk (escapeL a) ++ "<code>" ++ String.mk (escapeL c) ++ "</code>" ++ r)

/-- Every output of the fuel-driven escaper worker lies in the grammar. -/
theorem escOut_renderInlineAux (fuel : Nat) : ∀ cs, EscOut (renderInlineAux fuel cs) := by
  induction fuel with
  | zero => intro cs; exact EscOut.last cs
  | succ n ih =>
    intro cs
    cases h : findSpan cs with
    | none => simpa [renderInlineAux, h] using EscOut.last cs
    | some t =>
      obtain ⟨p, m, r⟩ := t
      have hs := EscOut.span p m (renderInlineAux n r) (ih r)
      simpa [renderInlineAux, h] using hs

/-- Per-character characterisation of `html.escape`: each character becomes
either a full entity or itself, and the dangerous characters `<`, `>` and
`&` never map to themselves. -/
theorem escChar_shape (c : Char) :
    escChar c = "&amp;".data ∨ escChar c = "&lt;".data ∨ escChar c = "&gt;".data ∨
    escChar c = "&quot;".data ∨ escChar c = "&#x27;".data ∨
    (escChar c = [c] ∧ c ≠ '<' ∧ c ≠ '>' ∧ c ≠ '&') := by
  by_cases h1 : c = '&'
  · left; simp [escChar, h1]
  · by_cases h2 : c = '<'
    · right; left; simp [escChar, h1, h2]
    · by_cases h3 : c = '>'
      · right; right; left; simp [escChar, h1, h2, h3]
      · by_cases h4 : c = '"'
        · right; right; right; left; simp [escChar, h1, h2, h3, h4]
        · by_cases h5 : c = '\''
          · right; right; right; right; left; simp [escChar, h1, h2, h3, h4, h5]
          · right; right; right; right; right
            exact ⟨by simp [escChar, h1, h2, h3, h4, h5], h2, h3, h1⟩

/-- No raw `<` or `>` survives `html.escape`. -/
theorem escapeL_no_angle (cs : List Char) : '<' ∉ escapeL cs ∧ '>' ∉ escapeL cs := by
  constructor
  · intro hmem
    simp only [escapeL, List.mem_flatten, List.mem_map] at hmem
    obtain ⟨piece, ⟨c, hc, hpiece⟩, hin⟩ := hmem
    subst hpiece
    rcases escChar_shape c with h | h | h | h | h | ⟨h, hlt, hgt, hamp⟩ <;> rw [h] at hin
    · exact absurd hin (by decide)
    · exact absurd hin (by decide)
    · exact absurd hin (by decide)
    · exact absurd hin (by decide)
    · exact absurd hin (by decide)
    · simp only [List.mem_singleton] at hin
      exact hlt hin.symm
  · intro hmem
    simp only [escapeL, List.mem_flatten, List.mem_map] at hmem
    obtain ⟨piece, ⟨c, hc, hpiece⟩, hin⟩ := hmem
    subst hpiece
    rcases escChar_shape c with h | h | h | h | h | ⟨h, hlt, hgt, hamp⟩ <;> rw [h] at hin
    · exact absurd hin (by decide)
    · exact absurd hin (by decide)
    · exact absurd hin (by decide)
    · exact absurd hin (by decide)
    · exact absurd hin (by decide)
    · simp only [List.mem_singleton] at hin
      exact hgt hin.symm

/-- A successful tick split means the input holds a backtick. -/
theorem splitAtTick_mem : ∀ (cs b a : List Char), splitAtTick cs = some (b, a) → tickChar ∈ cs := by
  intro cs
  induction cs with
  | nil => intro b a h; simp [splitAtTick] at h
  | cons c rest ih =>
    intro b a h
    simp only [splitAtTick] at h
    by_cases hc : c = tickChar
    · exact hc ▸ List.mem_cons_self c rest
    · rw [if_neg hc] at h
      cases hs : splitAtTick rest with
      | none => rw [hs] at h; simp at h
      | some q => exact List.mem_cons_of_mem _ (ih q.1 q.2 hs)

/-- A successful span match needs at least two backticks in the input. -/
theorem findSpan_count : ∀ (cs p m r : List Char),
    findSpan cs = some (p, m, r) → 2 ≤ cs.count tickChar := by
  intro cs
  induction cs with
  | nil => intro p m r h; simp [findSpan] at h
  | cons c rest ih =>
    intro p m r h
    simp only [findSpan] at h
    by_cases hc : c = tickChar
    · rw [if_pos hc] at h
      cases hs : splitAtTick rest with
      | none => rw [hs] at h; simp at h
      | some q =>
        obtain ⟨b2, a2⟩ := q
        rw [hs] at h
        have hmem : tickChar ∈ rest := splitAtTick_mem rest b2 a2 hs
        have hcnt : 0 < rest.count tickChar := List.count_pos_iff.mpr hmem
        subst hc
        simp only [List.count_cons_self]
        omega
    · rw [if_neg hc] at h
      cases hfs : findSpan rest with
      | none => rw [hfs] at h; simp at h
      | some t =>
        have hr := ih t.1 t.2.1 t.2.2 (by rw [hfs])
        have : rest.count tickChar ≤ (c :: rest).count tickChar := by
          simp [List.count_cons]
        omega

/-- Without a span match the escaper is plain escaping, at any fuel. -/
theorem renderInlineAux_of_none (cs : List Char) (h : findSpan cs = Option.none) :
    ∀ fuel, renderInlineAux fuel cs = String.mk (escapeL cs) := by
  intro fuel
  cases fuel with
  | zero => rfl
  | succ n => simp [renderInlineAux, h]

/-- Claim C9: (1) the escaper's output consists exactly of HTML-escaped text
outside spans and HTML-escaped span contents wrapped in inline-code tags;
(2) each character is escaped to a full entity or to itself only when it is
none of `<`, `>`, `&`; (3) hence no raw `<` or `>` of the input survives
escaping; (4) a lone unmatched backtick is literal text — the whole input is
then plainly escaped with no span. -/
theorem claim_C9_thm :
    (∀ s : String, EscOut (renderInlineCodeEscaped s)) ∧
    (∀ c : Char,
      escChar c = "&amp;".data ∨ escChar c = "&lt;".data ∨ escChar c = "&gt;".data ∨
      escChar c = "&quot;".data ∨ escChar c = "&#x27;".data ∨
      (escChar c = [c] ∧ c ≠ '<' ∧ c ≠ '>' ∧ c ≠ '&')) ∧
    (∀ t : String, '<' ∉ (htmlEscape t).data ∧ '>' ∉ (htmlEscape t).data) ∧
    (∀ a b : String, tickChar ∉ a.data → tickChar ∉ b.data →
      renderInlineCodeEscaped (a ++ String.mk [tickChar] ++ b) =
        htmlEscape (a ++ String.mk [tickChar] ++ b)) := by
  refine ⟨fun s => escOut_renderInlineAux s.length s.data, escChar_shape, ?_, ?_⟩
  · intro t
    exact escapeL_no_angle t.data
  · intro a b ha hb
    have hdata : (a ++ String.mk [tickChar] ++ b).data = a.data ++ tickChar :: b.data := by
      simp [String.data_append]
    have hcnt : (a ++ String.mk [tickChar] ++ b).data.count tickChar = 1 := by
      rw [hdata]
      rw [List.count_append, List.count_cons_self]
      rw [List.count_eq_zero.mpr ha, List.count_eq_zero.mpr hb]
    have hnone : findSpan (a ++ String.mk [tickChar] ++ b).data = Option.none := by
      cases hfs : findSpan (a ++ String.mk [tickChar] ++ b).data with
      | none => rfl
      | some t =>
        have := findSpan_count _ t.1 t.2.1 t.2.2 (by rw [hfs])
        omega
    exact renderInlineAux_of_none _ hnone _

/-- Witness for claim C9 at concrete inputs. -/
theorem claim_C9_wit :
    EscOut (renderInlineCodeEscaped "a<b") ∧
    renderInlineCodeEscaped ("x" ++ String.mk [tickChar] ++ "y") =
      htmlEscape ("x" ++ String.mk [tickChar] ++ "y") :=
  ⟨claim_C9_thm.1 "a<b", claim_C9_thm.2.2.2 "x" "y" (by decide) (by decide)⟩

/-- Whether a JSON value is a non-empty Python list. -/
def isNonemptyArrJ : JVal → Bool
  | .arr xs => !xs.isEmpty
  | _ => false

/-- Whether a JSON value is a non-empty Python dict. -/
def isNonemptyObjJ : JVal → Bool
  | .obj kvs => !kvs.isEmpty
  | _ => false

/-- Whether a JSON value is a string with non-blank content. -/
def isNonblankStrJ : JVal → Bool
  | .str s => pyStrip s != ""
  | _ => false

/-- Two strings differing at a character position differ. -/
theorem ne_of_data_get (u v : String) (n : Nat) (h : u.data.get? n ≠ v.data.get? n) :
    u ≠ v := fun he => h (by rw [he])

/-- Two strings of different lengths differ. -/
theorem ne_of_data_length (u v : String) (h : u.data.length ≠ v.data.length) :
    u ≠ v := fun he => h (by rw [he])

/-- Second character of a list-item part. -/
theorem get1_li (s : String) :
    ("<li>" ++ htmlEscape s ++ "</li>").data.get? 1 = some 'l' := rfl

/-- Second character of a code-block part. -/
theorem get1_pre (s : String) :
    ("<pre><code>" ++ htmlEscape s ++ "</code></pre>").data.get? 1 = some 'p' := rfl

/-- Third character of a paragraph part. -/
theorem get2_p (s : String) :
    ("<p>" ++ htmlEscape s ++ "</p>").data.get? 2 = some '>' := rfl

/-- Third character of an emphasised paragraph part. -/
theorem get2_em (s : String) :
    ("<p><em>" ++ htmlEscape s ++ "</em></p>").data.get? 2 = some '>' := rfl

/-- Members of the evidence chunk, by shape. -/
theorem mem_evidenceChunk_shape (ev : JVal) (x : String) (hx : x ∈ evidenceChunk ev) :
    x = hEvidence ∨ x = "<ul>" ∨ x = "</ul>" ∨
      ∃ s, x = "<li>" ++ htmlEscape s ++ "</li>" := by
  unfold evidenceChunk at hx
  cases ev with
  | arr items =>
    by_cases he : items.isEmpty
    · simp [he] at hx
    · simp only [he, Bool.false_eq_true, if_false, List.mem_cons, List.mem_append,
        List.mem_map] at hx
      rcases hx with h | h | h
      · exact Or.inl h
      · exact Or.inr (Or.inl h)
      · rcases h with ⟨it, _, h⟩ | h
        · exact Or.inr (Or.inr (Or.inr ⟨jStr it, h.symm⟩))
        · rcases h with h | h
          · exact Or.inr (Or.inr (Or.inl h))
          · simp at h
  | null => simp at hx
  | bool b => simp at hx
  | num s => simp at hx
  | str s => simp at hx
  | obj kvs => simp at hx

/-- Members of the key-KB-evidence chunk, by shape. -/
theorem mem_kbChunk_shape (kb : JVal) (x : String) (hx : x ∈ kbChunk kb) :
    x = hKb ∨ x = "<ul>" ∨ x = "</ul>" ∨
      ∃ s, x = "<li>" ++ htmlEscape s ++ "</li>" := by
  unfold kbChunk at hx
  cases kb with
  | arr items =>
    by_cases he : items.isEmpty
    · simp [he] at hx
    · simp only [he, Bool.false_eq_true, if_false, List.mem_cons, List.mem_append,
        List.mem_map] at hx
      rcases hx with h | h | h
      · exact Or.inl h
      · exact Or.inr (Or.inl h)
      · rcases h with ⟨it, _, h⟩ | h
        · exact Or.inr (Or.inr (Or.inr ⟨_, h.symm⟩))
        · rcases h with h | h
          · exact Or.inr (Or.inr (Or.inl h))
          · simp at h
  | null => simp at hx
  | bool b => simp at hx
  | num s => simp at hx
  | str s => simp at hx
  | obj kvs => simp at hx

/-- Members of the proposed-remediation chunk, by shape. -/
theorem mem_proposedChunk_shape (pr : JVal) (x : String) (hx : x ∈ proposedChunk pr) :
    x = hProposed ∨
      ∃ kv rest, pr = JVal.obj (kv :: rest) ∧
        x = "<pre><code>" ++ htmlEscape (jsonDumpsIndent (JVal.obj (kv :: rest)) 0) ++
          "</code></pre>" := by
  unfold proposedChunk at hx
  cases pr with
  | obj kvs =>
    cases kvs with
    | nil => simp at hx
    | cons kv rest =>
      simp only [List.isEmpty_cons, Bool.false_eq_true, if_false, List.mem_cons,
        List.mem_singleton] at hx
      rcases hx with h | h | h
      · exact Or.inl h
      · exact Or.inr ⟨kv, rest, rfl, h⟩
      · simp at h
  | null => simp at hx
  | bool b => simp at hx
  | num s => simp at hx
  | str s => simp at hx
  | arr xs => simp at hx

/-- Members of the reference-document chunk, by shape. -/
theorem mem_refDocChunk_shape (rd : JVal) (x : String) (hx : x ∈ refDocChunk rd) :
    x = hRefDoc ∨ ∃ s, x = "<p><em>" ++ htmlEscape s ++ "</em></p>" := by
  unfold refDocChunk at hx
  cases rd with
  | str s =>
    by_cases hs : pyStrip s != ""
    · simp only [hs, if_true, List.mem_cons, List.mem_singleton] at hx
      rcases hx with h | h | h
      · exact Or.inl h
      · exact Or.inr ⟨_, h⟩
      · simp at h
    · simp [hs] at hx
  | null => simp at hx
  | bool b => simp at hx
  | num s => simp at hx
  | arr xs => simp at hx
  | obj kvs => simp at hx

/-- The evidence heading lies in its chunk exactly when the field is a
non-empty list. -/
theorem hEvidence_mem_iff (ev : JVal) :
    hEvidence ∈ evidenceChunk ev ↔ isNonemptyArrJ ev = true := by
  unfold evidenceChunk isNonemptyArrJ
  cases ev with
  | arr items =>
    by_cases he : items.isEmpty <;> simp [he]
  | null => simp
  | bool b => simp
  | num s => simp
  | str s => simp
  | obj kvs => simp

/-- The KB heading lies in its chunk exactly when the field is a non-empty
list. -/
theorem hKb_mem_iff (kb : JVal) :
    hKb ∈ kbChunk kb ↔ isNonemptyArrJ kb = true := by
  unfold kbChunk isNonemptyArrJ
  cases kb with
  | arr items => by_cases he : items.isEmpty <;> simp [he]
  | null => simp
  | bool b => simp
  | num s => simp
  | str s => simp
  | obj kvs => simp

/-- The proposed-remediation heading lies in its chunk exactly when the
field is a non-empty dict. -/
theorem hProposed_mem_iff (pr : JVal) :
    hProposed ∈ proposedChunk pr ↔ isNonemptyObjJ pr = true := by
  unfold proposedChunk isNonemptyObjJ
  cases pr with
  | obj kvs => by_cases he : kvs.isEmpty <;> simp [he]
  | null => simp
  | bool b => simp
  | num s => simp
  | str s => simp
  | arr xs => simp

/-- The reference-document heading lies in its chunk exactly when the field
is a non-blank string. -/
theorem hRefDoc_mem_iff (rd : JVal) :
    hRefDoc ∈ refDocChunk rd ↔ isNonblankStrJ rd = true := by
  unfold refDocChunk isNonblankStrJ
  cases rd with
  | str s => by_cases hs : pyStrip s != "" <;> simp [hs]
  | null => simp
  | bool b => simp
  | num s => simp
  | arr xs => simp
  | obj kvs => simp

/-- Under the step-shape condition the command collection cannot raise. -/
theorem stepsCommands_ok (items : List JVal)
    (h : ∀ step ∈ items, jTruthy step = true → jIsObj step = true) :
    ∃ cmds, stepsCommands items = Except.ok cmds := by
  induction items with
  | nil => exact ⟨[], rfl⟩
  | cons step rest ih =>
    obtain ⟨more, hmore⟩ := ih (fun s hs => h s (List.mem_cons_of_mem _ hs))
    by_cases ht : jTruthy step = true
    · have hobj := h step (List.mem_cons_self _ _) ht
      cases step with
      | obj kvs =>
        simp only [stepsCommands, ht, if_true, hmore]
        cases hcm : (jGet (JVal.obj kvs) "command").getD JVal.null with
        | str s => by_cases hs : pyStrip s != "" <;> simp [hs]
        | null => exact ⟨more, rfl⟩
        | bool b => exact ⟨more, rfl⟩
        | num n => exact ⟨more, rfl⟩
        | arr xs => exact ⟨more, rfl⟩
        | obj kvs2 => exact ⟨more, rfl⟩
      | null => simp [jIsObj] at hobj
      | bool b => simp [jIsObj] at hobj
      | num n => simp [jIsObj] at hobj
      | str s => simp [jIsObj] at hobj
      | arr xs => simp [jIsObj] at hobj
    · simp only [Bool.not_eq_true] at ht
      simp only [stepsCommands, ht, Bool.false_eq_true, if_false, hmore]
      cases hcm : (jGet (JVal.obj []) "command").getD JVal.null with
      | str s => by_cases hs : pyStrip s != "" <;> simp [hs]
      | null => exact ⟨more, rfl⟩
      | bool b => exact ⟨more, rfl⟩
      | num n => exact ⟨more, rfl⟩
      | arr xs => exact ⟨more, rfl⟩
      | obj kvs2 => exact ⟨more, rfl⟩

/-- Second character of a paragraph part. -/
theorem get1_p1 (s : String) :
    ("<p>" ++ htmlEscape s ++ "</p>").data.get? 1 = some 'p' := rfl

/-- Second character of an emphasised paragraph part. -/
theorem get1_em1 (s : String) :
    ("<p><em>" ++ htmlEscape s ++ "</em></p>").data.get? 1 = some 'p' := rfl

/-- Escaping one character never yields the empty list. -/
theorem escChar_ne_nil (c : Char) : escChar c ≠ [] := by
  rcases escChar_shape c with h | h | h | h | h | ⟨h, _, _, _⟩ <;> rw [h] <;> simp

/-- Escaping a non-empty list yields a non-empty list. -/
theorem escapeL_ne_nil (cs : List Char) (h : cs ≠ []) : escapeL cs ≠ [] := by
  cases cs with
  | nil => exact absurd rfl h
  | cons c rest =>
    simp only [escapeL, List.map_cons, List.flatten_cons, ne_eq, List.append_eq_nil]
    intro hcon
    exact escChar_ne_nil c hcon.1

/-- The indented dump of a non-empty object is non-empty. -/
theorem dump_data_ne_nil (kv : String × JVal) (rest : List (String × JVal)) :
    (jsonDumpsIndent (JVal.obj (kv :: rest)) 0).data ≠ [] := by
  simp [jsonDumpsIndent, String.data_append]

/-- The empty command block differs from every proposed-remediation block. -/
theorem block_ne_pre_dump (kv : String × JVal) (rest : List (String × JVal)) :
    ("<pre><code></code></pre>" : String) ≠
      "<pre><code>" ++ htmlEscape (jsonDumpsIndent (JVal.obj (kv :: rest)) 0) ++
        "</code></pre>" := by
  apply ne_of_data_length
  have h1 : (escapeL (jsonDumpsIndent (JVal.obj (kv :: rest)) 0).data).length ≠ 0 := by
    intro hlen
    exact escapeL_ne_nil _ (dump_data_ne_nil kv rest) (List.length_eq_zero.mp hlen)
  rw [String.data_append, String.data_append, List.length_append, List.length_append]
  have h24 : ("<pre><code></code></pre>" : String).data.length = 24 := rfl
  have h11 : ("<pre><code>" : String).data.length = 11 := rfl
  have h13 : ("</code></pre>" : String).data.length = 13 := rfl
  have h4 : (htmlEscape (jsonDumpsIndent (JVal.obj (kv :: rest)) 0)).data.length =
      (escapeL (jsonDumpsIndent (JVal.obj (kv :: rest)) 0).data).length := rfl
  rw [h24, h11, h13, h4]
  omega

/-- A heading-like string (second character `h`) other than the evidence
heading never lies in the evidence chunk. -/
theorem h_notin_ev (x : String) (ev : JVal) (hx1 : x.data.get? 1 = some 'h')
    (hne : x ≠ hEvidence) : x ∉ evidenceChunk ev := by
  intro hm
  rcases mem_evidenceChunk_shape ev x hm with h | h | h | ⟨s, h⟩
  · exact hne h
  · subst h; exact absurd hx1 (by decide)
  · subst h; exact absurd hx1 (by decide)
  · subst h; rw [get1_li s] at hx1; exact absurd hx1 (by decide)

/-- A heading-like string other than the KB heading never lies in the KB
chunk. -/
theorem h_notin_kb (x : String) (kb : JVal) (hx1 : x.data.get? 1 = some 'h')
    (hne : x ≠ hKb) : x ∉ kbChunk kb := by
  intro hm
  rcases mem_kbChunk_shape kb x hm with h | h | h | ⟨s, h⟩
  · exact hne h
  · subst h; exact absurd hx1 (by decide)
  · subst h; exact absurd hx1 (by decide)
  · subst h; rw [get1_li s] at hx1; exact absurd hx1 (by decide)

/-- A heading-like string other than the proposed-remediation heading never
lies in the proposed chunk. -/
theorem h_notin_pr (x : String) (pr : JVal) (hx1 : x.data.get? 1 = some 'h')
    (hne : x ≠ hProposed) : x ∉ proposedChunk pr := by
  intro hm
  rcases mem_proposedChunk_shape pr x hm with h | ⟨kv, rest, _, h⟩
  · exact hne h
  · subst h; rw [get1_pre] at hx1; exact absurd hx1 (by decide)

/-- A heading-like string other than the reference-document heading never
lies in the reference chunk. -/
theorem h_notin_rd (x : String) (rd : JVal) (hx1 : x.data.get? 1 = some 'h')
    (hne : x ≠ hRefDoc) : x ∉ refDocChunk rd := by
  intro hm
  rcases mem_refDocChunk_shape rd x hm with h | ⟨s, h⟩
  · exact hne h
  · subst h; rw [get1_em1] at hx1; exact absurd hx1 (by decide)

/-- A heading-like string differs from any probable-cause body slot. -/
theorem h_ne_body (x body : String) (hx1 : x.data.get? 1 = some 'h')
    (hbshape : body = "" ∨ ∃ s, body = "<p>" ++ htmlEscape s ++ "</p>") : x ≠ body := by
  rcases hbshape with h | ⟨s, h⟩
  · subst h
    exact ne_of_data_get _ _ 1 (by rw [hx1]; decide)
  · subst h
    exact ne_of_data_get _ _ 1 (by rw [hx1, get1_p1]; decide)

/-- Core of the amended C2: given the body slot and next-steps chunk, the
part list is as built and each guarded heading appears in it exactly when
its field condition holds. -/
theorem c2_core (j : JVal) (body : String) (nsParts : List String)
    (hbody : probBodyOf j = Except.ok body)
    (hbshape : body = "" ∨ ∃ s, body = "<p>" ++ htmlEscape s ++ "</p>")
    (hnsch : nextStepsChunk (nextStepsOf j) = Except.ok nsParts)
    (hnshape : nsParts = [] ∨ nsParts = [hNextSteps] ∨
      ∃ cs, nsParts = [hNextSteps, "<pre><code>" ++ htmlEscape cs ++ "</code></pre>"])
    (hnsmem : (hNextSteps ∈ nsParts) ↔ isNonemptyArrJ (nextStepsOf j) = true) :
    ragParts j = Except.ok (hProbable :: body ::
        (evidenceChunk (evidenceOf j) ++ nsParts ++ proposedChunk (proposedOf j) ++
         kbChunk (kbOf j) ++ refDocChunk (refDocOf j))) ∧
    ((hEvidence ∈ hProbable :: body :: (evidenceChunk (evidenceOf j) ++ nsParts ++
        proposedChunk (proposedOf j) ++ kbChunk (kbOf j) ++ refDocChunk (refDocOf j))) ↔
      isNonemptyArrJ (evidenceOf j) = true) ∧
    ((hNextSteps ∈ hProbable :: body :: (evidenceChunk (evidenceOf j) ++ nsParts ++
        proposedChunk (proposedOf j) ++ kbChunk (kbOf j) ++ refDocChunk (refDocOf j))) ↔
      isNonemptyArrJ (nextStepsOf j) = true) ∧
    ((hProposed ∈ hProbable :: body :: (evidenceChunk (evidenceOf j) ++ nsParts ++
        proposedChunk (proposedOf j) ++ kbChunk (kbOf j) ++ refDocChunk (refDocOf j))) ↔
      isNonemptyObjJ (proposedOf j) = true) ∧
    ((hKb ∈ hProbable :: body :: (evidenceChunk (evidenceOf j) ++ nsParts ++
        proposedChunk (proposedOf j) ++ kbChunk (kbOf j) ++ refDocChunk (refDocOf j))) ↔
      isNonemptyArrJ (kbOf j) = true) ∧
    ((hRefDoc ∈ hProbable :: body :: (evidenceChunk (evidenceOf j) ++ nsParts ++
        proposedChunk (proposedOf j) ++ kbChunk (kbOf j) ++ refDocChunk (refDocOf j))) ↔
      isNonblankStrJ (refDocOf j) = true) := by
  have hexp : ∀ x : String, (x ∈ hProbable :: body :: (evidenceChunk (evidenceOf j) ++
      nsParts ++ proposedChunk (proposedOf j) ++ kbChunk (kbOf j) ++
      refDocChunk (refDocOf j))) ↔
      (x = hProbable ∨ x = body ∨ x ∈ evidenceChunk (evidenceOf j) ∨ x ∈ nsParts ∨
       x ∈ proposedChunk (proposedOf j) ∨ x ∈ kbChunk (kbOf j) ∨
       x ∈ refDocChunk (refDocOf j)) := by
    intro x
    simp [List.mem_cons, List.mem_append, or_assoc]
  have hnsother : ∀ x : String, x.data.get? 1 = some 'h' → x ≠ hNextSteps →
      x ∉ nsParts := by
    intro x hx1 hxo hm
    rcases hnshape with h | h | ⟨cs, h⟩ <;> subst h
    · simp at hm
    · simp only [List.mem_singleton] at hm
      exact hxo hm
    · simp only [List.mem_cons, List.mem_singleton] at hm
      rcases hm with hm | hm | hm
      · exact hxo hm
      · subst hm; rw [get1_pre] at hx1; exact absurd hx1 (by decide)
      · simp at hm
  refine ⟨by simp [ragParts, hbody, hnsch], ?_, ?_, ?_, ?_, ?_⟩
  · rw [hexp]
    constructor
    · rintro (h | h | h | h | h | h | h)
      · exact absurd h (by decide)
      · exact absurd h (h_ne_body _ _ rfl hbshape)
      · exact (hEvidence_mem_iff _).mp h
      · exact absurd h (hnsother _ rfl (by decide))
      · exact absurd h (h_notin_pr _ _ rfl (by decide))
      · exact absurd h (h_notin_kb _ _ rfl (by decide))
      · exact absurd h (h_notin_rd _ _ rfl (by decide))
    · intro hc
      exact Or.inr (Or.inr (Or.inl ((hEvidence_mem_iff _).mpr hc)))
  · rw [hexp]
    constructor
    · rintro (h | h | h | h | h | h | h)
      · exact absurd h (by decide)
      · exact absurd h (h_ne_body _ _ rfl hbshape)
      · exact absurd h (h_notin_ev _ _ rfl (by decide))
      · exact hnsmem.mp h
      · exact absurd h (h_notin_pr _ _ rfl (by decide))
      · exact absurd h (h_notin_kb _ _ rfl (by decide))
      · exact absurd h (h_notin_rd _ _ rfl (by decide))
    · intro hc
      exact Or.inr (Or.inr (Or.inr (Or.inl (hnsmem.mpr hc))))
  · rw [hexp]
    constructor
    · rintro (h | h | h | h | h | h | h)
      · exact absurd h (by decide)
      · exact absurd h (h_ne_body _ _ rfl hbshape)
      · exact absurd h (h_notin_ev _ _ rfl (by decide))
      · exact absurd h (hnsother _ rfl (by decide))
      · exact (hProposed_mem_iff _).mp h
      · exact absurd h (h_notin_kb _ _ rfl (by decide))
      · exact absurd h (h_notin_rd _ _ rfl (by decide))
    · intro hc
      exact Or.inr (Or.inr (Or.inr (Or.inr (Or.inl ((hProposed_mem_iff _).mpr hc)))))
  · rw [hexp]
    constructor
    · rintro (h | h | h | h | h | h | h)
      · exact absurd h (by decide)
      · exact absurd h (h_ne_body _ _ rfl hbshape)
      · exact absurd h (h_notin_ev _ _ rfl (by decide))
      · exact absurd h (hnsother _ rfl (by decide))
      · exact absurd h (h_notin_pr _ _ rfl (by decide))
      · exact (hKb_mem_iff _).mp h
      · exact absurd h (h_notin_rd _ _ rfl (by decide))
    · intro hc
      exact Or.inr (Or.inr (Or.inr (Or.inr (Or.inr (Or.inl ((hKb_mem_iff _).mpr hc))))))
  · rw [hexp]
    constructor
    · rintro (h | h | h | h | h | h | h)
      · exact absurd h (by decide)
      · exact absurd h (h_ne_body _ _ rfl hbshape)
      · exact absurd h (h_notin_ev _ _ rfl (by decide))
      · exact absurd h (hnsother _ rfl (by decide))
      · exact absurd h (h_notin_pr _ _ rfl (by decide))
      · exact absurd h (h_notin_kb _ _ rfl (by decide))
      · exact (hRefDoc_mem_iff _).mp h
    · intro hc
      exact Or.inr (Or.inr (Or.inr (Or.inr (Or.inr (Or.inr ((hRefDoc_mem_iff _).mpr hc))))))

/-- The empty command block never appears among the parts when the
next-steps chunk carries no block. -/
theorem block0_notin_parts (j : JVal) (body : String) (nsParts : List String)
    (hbshape : body = "" ∨ ∃ s, body = "<p>" ++ htmlEscape s ++ "</p>")
    (hns0 : nsParts = [] ∨ nsParts = [hNextSteps]) :
    ("<pre><code></code></pre>" : String) ∉ hProbable :: body ::
      (evidenceChunk (evidenceOf j) ++ nsParts ++ proposedChunk (proposedOf j) ++
       kbChunk (kbOf j) ++ refDocChunk (refDocOf j)) := by
  intro hm
  simp only [List.mem_cons, List.mem_append, or_assoc] at hm
  rcases hm with h | h | h | h | h | h | h
  · exact absurd h (by decide)
  · rcases hbshape with hb | ⟨s, hb⟩
    · subst hb; exact absurd h (by decide)
    · subst hb
      exact absurd h (ne_of_data_get _ _ 2 (by rw [get2_p]; decide))
  · rcases mem_evidenceChunk_shape _ _ h with h2 | h2 | h2 | ⟨s, h2⟩
    · exact absurd h2 (by decide)
    · exact absurd h2 (by decide)
    · exact absurd h2 (by decide)
    · exact absurd h2 (ne_of_data_get _ _ 1 (by rw [get1_li]; decide))
  · rcases hns0 with hn | hn <;> subst hn
    · simp at h
    · simp only [List.mem_singleton] at h
      exact absurd h (by decide)
  · rcases mem_proposedChunk_shape _ _ h with h2 | ⟨kv, rest, _, h2⟩
    · exact absurd h2 (by decide)
    · exact absurd h2 (block_ne_pre_dump kv rest)
  · rcases mem_kbChunk_shape _ _ h with h2 | h2 | h2 | ⟨s, h2⟩
    · exact absurd h2 (by decide)
    · exact absurd h2 (by decide)
    · exact absurd h2 (by decide)
    · exact absurd h2 (ne_of_data_get _ _ 1 (by rw [get1_li]; decide))
  · rcases mem_refDocChunk_shape _ _ h with h2 | ⟨s, h2⟩
    · exact absurd h2 (by decide)
    · exact absurd h2 (ne_of_data_get _ _ 2 (by rw [get2_em]; decide))

/-- Counterexample to claim C2 as stated: for the non-empty findings object
`{"evidence_mapping": ["e"]}` the probable-cause field is absent, yet the
emitted part list still contains the Probable-cause heading. -/
theorem claim_C2_cx :
    ragParts (JVal.obj [("evidence_mapping", JVal.arr [JVal.str "e"])]) =
      Except.ok ["<h4>1) Probable cause</h4>", "",
        "<h4>2) Evidence mapping</h4>", "<ul>", "<li>e</li>", "</ul>"] ∧
    "<h4>1) Probable cause</h4>" ∈
      ["<h4>1) Probable cause</h4>", "",
       "<h4>2) Evidence mapping</h4>", "<ul>", "<li>e</li>", "</ul>"] ∧
    jGet (JVal.obj [("evidence_mapping", JVal.arr [JVal.str "e"])]) "probable_cause" =
      Option.none :=
  ⟨rfl, by decide, rfl⟩

/-- Claim C2 (amended): for every non-empty, well-typed findings mapping the
part list exists, and sections behave as follows — the Probable-cause
heading is always present while its body slot holds the escaped paragraph
exactly when the field is truthy (and the empty part otherwise); the
Evidence-mapping, Proposed-remediation, Key-KB-evidence and
Reference-document headings appear exactly when their field is a non-empty
list / non-empty dict / non-blank string; the Next-steps heading appears
exactly when `next_steps` is a non-empty list, and the consolidated command
block appears exactly when the collected commands are non-empty. -/
theorem claim_C2_thm (kvs : List (String × JVal)) (_hne : kvs.isEmpty = false)
    (hprob : jTruthy (probableOf (JVal.obj kvs)) = true →
      jIsStr (probableOf (JVal.obj kvs)) = true)
    (hsteps : ∀ items, nextStepsOf (JVal.obj kvs) = JVal.arr items →
      ∀ step ∈ items, jTruthy step = true → jIsObj step = true) :
    ∃ parts, ragParts (JVal.obj kvs) = Except.ok parts ∧
      hProbable ∈ parts ∧
      (jTruthy (probableOf (JVal.obj kvs)) = true →
        ∃ s, probableOf (JVal.obj kvs) = JVal.str s ∧
          parts.get? 1 = some ("<p>" ++ htmlEscape s ++ "</p>")) ∧
      (jTruthy (probableOf (JVal.obj kvs)) = false → parts.get? 1 = some "") ∧
      ((hEvidence ∈ parts) ↔ isNonemptyArrJ (evidenceOf (JVal.obj kvs)) = true) ∧
      ((hNextSteps ∈ parts) ↔ isNonemptyArrJ (nextStepsOf (JVal.obj kvs)) = true) ∧
      (∀ items cmds, nextStepsOf (JVal.obj kvs) = JVal.arr items →
        stepsCommands items = Except.ok cmds →
        ((("<pre><code>" ++ htmlEscape (String.intercalate "\n" cmds) ++ "</code></pre>")
            ∈ parts) ↔ cmds ≠ [])) ∧
      ((hProposed ∈ parts) ↔ isNonemptyObjJ (proposedOf (JVal.obj kvs)) = true) ∧
      ((hKb ∈ parts) ↔ isNonemptyArrJ (kbOf (JVal.obj kvs)) = true) ∧
      ((hRefDoc ∈ parts) ↔ isNonblankStrJ (refDocOf (JVal.obj kvs)) = true) := by
  obtain ⟨body, hbody, hbshape, hbtr, hbfa⟩ :
      ∃ body, probBodyOf (JVal.obj kvs) = Except.ok body ∧
        (body = "" ∨ ∃ s, body = "<p>" ++ htmlEscape s ++ "</p>") ∧
        (jTruthy (probableOf (JVal.obj kvs)) = true →
          ∃ s, probableOf (JVal.obj kvs) = JVal.str s ∧
            body = "<p>" ++ htmlEscape s ++ "</p>") ∧
        (jTruthy (probableOf (JVal.obj kvs)) = false → body = "") := by
    by_cases hpt : jTruthy (probableOf (JVal.obj kvs)) = true
    · have hstr := hprob hpt
      cases hps : probableOf (JVal.obj kvs) with
      | str s =>
        have hpt2 : jTruthy (JVal.str s) = true := by rw [hps] at hpt; exact hpt
        refine ⟨"<p>" ++ htmlEscape s ++ "</p>", ?_, Or.inr ⟨s, rfl⟩,
          fun _ => ⟨s, rfl, rfl⟩, ?_⟩
        · simp [probBodyOf, hps, hpt2]
        · intro hf
          rw [hpt2] at hf
          cases hf
      | null => rw [hps] at hstr; simp [jIsStr] at hstr
      | bool b => rw [hps] at hstr; simp [jIsStr] at hstr
      | num n => rw [hps] at hstr; simp [jIsStr] at hstr
      | arr xs => rw [hps] at hstr; simp [jIsStr] at hstr
      | obj kvs2 => rw [hps] at hstr; simp [jIsStr] at hstr
    · simp only [Bool.not_eq_true] at hpt
      refine ⟨"", ?_, Or.inl rfl, fun ht => absurd ht (by simp [hpt]), fun _ => rfl⟩
      simp [probBodyOf, hpt]
  obtain ⟨nsParts, hnsch, hnshape, hnsmem, hblock⟩ :
      ∃ nsParts, nextStepsChunk (nextStepsOf (JVal.obj kvs)) = Except.ok nsParts ∧
        (nsParts = [] ∨ nsParts = [hNextSteps] ∨
          ∃ cs, nsParts = [hNextSteps, "<pre><code>" ++ htmlEscape cs ++ "</code></pre>"]) ∧
        ((hNextSteps ∈ nsParts) ↔ isNonemptyArrJ (nextStepsOf (JVal.obj kvs)) = true) ∧
        (∀ items cmds, nextStepsOf (JVal.obj kvs) = JVal.arr items →
          stepsCommands items = Except.ok cmds →
          ((("<pre><code>" ++ htmlEscape (String.intercalate "\n" cmds) ++ "</code></pre>")
              ∈ nsParts) ↔ cmds ≠ []) ∧
          (cmds = [] → nsParts = [] ∨ nsParts = [hNextSteps])) := by
    cases hns : nextStepsOf (JVal.obj kvs) with
    | arr items0 =>
      cases items0 with
      | nil =>
        refine ⟨[], by simp [nextStepsChunk], Or.inl rfl, by simp [isNonemptyArrJ], ?_⟩
        intro items cmds hitems hcmds
        have hi : items = [] := by
          have := hitems
          injection this with h2
          exact h2.symm
        subst hi
        have hc : cmds = [] := by
          have : Except.ok (ε := PyErr) ([] : List String) = Except.ok cmds := hcmds
          injection this with h2
          exact h2.symm
        subst hc
        exact ⟨by simp, fun _ => Or.inl rfl⟩
      | cons s0 rest0 =>
        obtain ⟨cmds0, hcm0⟩ := stepsCommands_ok (s0 :: rest0) (hsteps (s0 :: rest0) hns)
        cases hc0 : cmds0 with
        | nil =>
          subst hc0
          refine ⟨[hNextSteps], by simp [nextStepsChunk, hcm0], Or.inr (Or.inl rfl),
            by simp [isNonemptyArrJ], ?_⟩
          intro items cmds hitems hcmds
          have hi : items = s0 :: rest0 := by
            injection hitems with h2
            exact h2.symm
          subst hi
          have hc : cmds = [] := by
            rw [hcm0] at hcmds
            injection hcmds with h2
            exact h2.symm
          subst hc
          constructor
          · constructor
            · intro hmem
              simp only [List.mem_singleton] at hmem
              exact absurd hmem (by decide)
            · intro hcon; exact absurd rfl hcon
          · intro _; exact Or.inr rfl
        | cons c0 cr0 =>
          subst hc0
          refine ⟨[hNextSteps,
            "<pre><code>" ++ htmlEscape (String.intercalate "\n" (c0 :: cr0)) ++ "</code></pre>"],
            by simp [nextStepsChunk, hcm0], Or.inr (Or.inr ⟨_, rfl⟩),
            by simp [isNonemptyArrJ], ?_⟩
          intro items cmds hitems hcmds
          have hi : items = s0 :: rest0 := by
            injection hitems with h2
            exact h2.symm
          subst hi
          have hc : cmds = c0 :: cr0 := by
            rw [hcm0] at hcmds
            injection hcmds with h2
            exact h2.symm
          subst hc
          constructor
          · simp
          · intro hcon; exact absurd hcon (by simp)
    | null =>
      refine ⟨[], by simp [nextStepsChunk], Or.inl rfl, by simp [isNonemptyArrJ], ?_⟩
      intro items cmds hitems _
      exact absurd hitems (by simp)
    | bool b =>
      refine ⟨[], by simp [nextStepsChunk], Or.inl rfl, by simp [isNonemptyArrJ], ?_⟩
      intro items cmds hitems _
      exact absurd hitems (by simp)
    | num n =>
      refine ⟨[], by simp [nextStepsChunk], Or.inl rfl, by simp [isNonemptyArrJ], ?_⟩
      intro items cmds hitems _
      exact absurd hitems (by simp)
    | str s =>
      refine ⟨[], by simp [nextStepsChunk], Or.inl rfl, by simp [isNonemptyArrJ], ?_⟩
      intro items cmds hitems _
      exact absurd hitems (by simp)
    | obj kvs2 =>
      refine ⟨[], by simp [nextStepsChunk], Or.inl rfl, by simp [isNonemptyArrJ], ?_⟩
      intro items cmds hitems _
      exact absurd hitems (by simp)
  obtain ⟨hok, hiffEv, hiffNs, hiffPr, hiffKb, hiffRd⟩ :=
    c2_core (JVal.obj kvs) body nsParts hbody hbshape hnsch hnshape hnsmem
  refine ⟨hProbable :: body ::
      (evidenceChunk (evidenceOf (JVal.obj kvs)) ++ nsParts ++
       proposedChunk (proposedOf (JVal.obj kvs)) ++ kbChunk (kbOf (JVal.obj kvs)) ++
       refDocChunk (refDocOf (JVal.obj kvs))),
    hok, List.mem_cons_self _ _, ?_, ?_, hiffEv, hiffNs, ?_, hiffPr, hiffKb, hiffRd⟩
  · intro hpt
    obtain ⟨s, hps, hb⟩ := hbtr hpt
    exact ⟨s, hps, by rw [hb]; rfl⟩
  · intro hpf
    rw [hbfa hpf]
    rfl
  · intro items cmds hitems hcmds
    obtain ⟨hiffmem, hzero⟩ := hblock items cmds hitems hcmds
    constructor
    · intro hmem
      by_cases hcn : cmds = []
      · exfalso
        have hblk0 : ("<pre><code>" ++ htmlEscape (String.intercalate "\n" cmds) ++
            "</code></pre>") = ("<pre><code></code></pre>" : String) := by
          subst hcn; rfl
        rw [hblk0] at hmem
        exact block0_notin_parts (JVal.obj kvs) body nsParts hbshape (hzero hcn) hmem
      · exact hcn
    · intro hcn
      have hin : ("<pre><code>" ++ htmlEscape (String.intercalate "\n" cmds) ++
          "</code></pre>") ∈ nsParts := hiffmem.mpr hcn
      simp only [List.mem_cons, List.mem_append]
      exact Or.inr (Or.inr (Or.inl (Or.inl (Or.inl (Or.inr hin)))))

/-- Witness for claim C2 at a concrete well-typed findings object. -/
theorem claim_C2_wit :
    ∃ parts, ragParts (JVal.obj
        [("probable_cause", JVal.str "disk full"),
         ("next_steps", JVal.arr [JVal.obj [("command", JVal.str "kubectl get pods")]]),
         ("evidence_mapping", JVal.arr [JVal.str "e"])]) = Except.ok parts ∧
      hProbable ∈ parts ∧
      (hEvidence ∈ parts) ∧ (hNextSteps ∈ parts) := by
  obtain ⟨parts, hok, hp, _, _, hev, hns, _⟩ :=
    claim_C2_thm
      [("probable_cause", JVal.str "disk full"),
       ("next_steps", JVal.arr [JVal.obj [("command", JVal.str "kubectl get pods")]]),
       ("evidence_mapping", JVal.arr [JVal.str "e"])]
      rfl (fun _ => rfl)
      (by
        intro items hitems step hstep htr
        have h2 : JVal.arr [JVal.obj [("command", JVal.str "kubectl get pods")]] =
            JVal.arr items := hitems
        injection h2 with h3
        subst h3
        simp only [List.mem_singleton] at hstep
        subst hstep
        rfl)
  exact ⟨parts, hok, hp, hev.mpr rfl, hns.mpr rfl⟩
